import Mathlib

/-!
# AlgoChat PSK protocol — verification of the cryptographic message layer

A shallow embedding of the PSK ("pre-shared key") message layer of the
AlgoChat browser client: the two-level HKDF ratchet (`psk-ratchet.ts`),
the hybrid ECDH+PSK encryption (`psk-encryption.ts`), the envelope codec
(`psk-envelope.ts`), the sliding-window counter state (`psk-state.ts`)
and the exchange URI (`psk-exchange.ts`).

Bytes are modelled as natural numbers below 256, byte strings as
`List Nat`.  The repository's own functions are translated statement by
statement from the TypeScript source.  External primitives that the
repository only calls (`@noble/hashes` HKDF-SHA256, `@noble/ciphers`
ChaCha20-Poly1305, `@noble/curves` X25519, the JavaScript string/URI
builtins) are modelled explicitly: HKDF-SHA256 is implemented in full
(bit-exact, checked against the repository's test vectors), while the
AEAD and the Diffie-Hellman group are algebraic models that expose
exactly the interfaces and laws the source relies on.
-/

namespace AlgoChat

/-! ## SHA-256 (model of `@noble/hashes` sha256) -/

/-- Truncate to a 32-bit word. -/
def w32 (n : Nat) : Nat := n % 4294967296

/-- Right rotation of a 32-bit word. -/
def rotr (n x : Nat) : Nat := w32 ((x >>> n) ||| (x <<< (32 - n)))

def shaCh (x y z : Nat) : Nat := (x &&& y) ^^^ ((x ^^^ 4294967295) &&& z)

def shaMaj (x y z : Nat) : Nat := (x &&& y) ^^^ (x &&& z) ^^^ (y &&& z)

def bigSigma0 (x : Nat) : Nat := rotr 2 x ^^^ rotr 13 x ^^^ rotr 22 x

def bigSigma1 (x : Nat) : Nat := rotr 6 x ^^^ rotr 11 x ^^^ rotr 25 x

def smallSigma0 (x : Nat) : Nat := rotr 7 x ^^^ rotr 18 x ^^^ (x >>> 3)

def smallSigma1 (x : Nat) : Nat := rotr 17 x ^^^ rotr 19 x ^^^ (x >>> 10)

/-- The SHA-256 round constants. -/
def shaK : List Nat :=
  [1116352408, 1899447441, 3049323471, 3921009573, 961987163,
   1508970993, 2453635748, 2870763221, 3624381080, 310598401,
   607225278, 1426881987, 1925078388, 2162078206, 2614888103,
   3248222580, 3835390401, 4022224774, 264347078, 604807628,
   770255983, 1249150122, 1555081692, 1996064986, 2554220882,
   2821834349, 2952996808, 3210313671, 3336571891, 3584528711,
   113926993, 338241895, 666307205, 773529912, 1294757372,
   1396182291, 1695183700, 1986661051, 2177026350, 2456956037,
   2730485921, 2820302411, 3259730800, 3345764771, 3516065817,
   3600352804, 4094571909, 275423344, 430227734, 506948616,
   659060556, 883997877, 958139571, 1322822218, 1537002063,
   1747873779, 1955562222, 2024104815, 2227730452, 2361852424,
   2428436474, 2756734187, 3204031479, 3329325298]

/-- The SHA-256 initial hash value. -/
def shaH0 : List Nat :=
  [1779033703, 3144134277, 1013904242, 2773480762,
   1359893119, 2600822924, 528734635, 1541459225]

/-- Extend a reversed 16-word schedule by `n` further words (reversed order:
the most recent word is at the head). -/
def extendSchedule : Nat → List Nat → List Nat
  | 0, acc => acc
  | n + 1, acc =>
      let next := w32 (smallSigma1 (acc.getD 1 0) + acc.getD 6 0 +
        smallSigma0 (acc.getD 14 0) + acc.getD 15 0)
      extendSchedule n (next :: acc)

/-- Group a byte list into big-endian 32-bit words. -/
def bytesToWords : List Nat → List Nat
  | b0 :: b1 :: b2 :: b3 :: rest =>
      (b0 <<< 24 ||| b1 <<< 16 ||| b2 <<< 8 ||| b3) :: bytesToWords rest
  | _ => []

/-- Big-endian bytes of one 32-bit word. -/
def wordToBytes (w : Nat) : List Nat :=
  [w >>> 24 % 256, w >>> 16 % 256, w >>> 8 % 256, w % 256]

/-- The state of the SHA-256 compression loop. -/
structure ShaRegs where
  a : Nat
  b : Nat
  c : Nat
  d : Nat
  e : Nat
  f : Nat
  g : Nat
  h : Nat

/-- One SHA-256 round: fold in the round constant `k` and schedule word `w`. -/
def shaRound (st : ShaRegs) (kw : Nat × Nat) : ShaRegs :=
  let t1 := w32 (st.h + bigSigma1 st.e + shaCh st.e st.f st.g + kw.1 + kw.2)
  let t2 := w32 (bigSigma0 st.a + shaMaj st.a st.b st.c)
  { a := w32 (t1 + t2), b := st.a, c := st.b, d := st.c,
    e := w32 (st.d + t1), f := st.e, g := st.f, h := st.g }

/-- Compress one 64-byte block into the running hash value. -/
def shaCompress (hv : List Nat) (block : List Nat) : List Nat :=
  let w16 := bytesToWords block
  let sched := (extendSchedule 48 w16.reverse).reverse
  let init : ShaRegs :=
    { a := hv.getD 0 0, b := hv.getD 1 0, c := hv.getD 2 0, d := hv.getD 3 0,
      e := hv.getD 4 0, f := hv.getD 5 0, g := hv.getD 6 0, h := hv.getD 7 0 }
  let fin := (shaK.zip sched).foldl shaRound init
  [w32 (hv.getD 0 0 + fin.a), w32 (hv.getD 1 0 + fin.b),
   w32 (hv.getD 2 0 + fin.c), w32 (hv.getD 3 0 + fin.d),
   w32 (hv.getD 4 0 + fin.e), w32 (hv.getD 5 0 + fin.f),
   w32 (hv.getD 6 0 + fin.g), w32 (hv.getD 7 0 + fin.h)]

/-- Split a byte list into 64-byte blocks (structural recursion on a fuel
argument so that the definition reduces in the kernel). -/
def chunks64Aux : Nat → List Nat → List (List Nat)
  | 0, _ => []
  | _ + 1, [] => []
  | fuel + 1, x :: xs =>
      (x :: xs).take 64 :: chunks64Aux fuel ((x :: xs).drop 64)

/-- Split a byte list into 64-byte blocks. -/
def chunks64 (l : List Nat) : List (List Nat) := chunks64Aux l.length l

/-- SHA-256 padding: append `0x80`, zero bytes and the 64-bit big-endian
bit length, reaching a multiple of 64 bytes. -/
def shaPad (msg : List Nat) : List Nat :=
  let bitLen := msg.length * 8
  let zeros := (64 + 56 - ((msg.length + 1) % 64)) % 64
  msg ++ [0x80] ++ List.replicate zeros 0 ++
    [bitLen >>> 56 % 256, bitLen >>> 48 % 256, bitLen >>> 40 % 256,
     bitLen >>> 32 % 256, bitLen >>> 24 % 256, bitLen >>> 16 % 256,
     bitLen >>> 8 % 256, bitLen % 256]

/-- SHA-256 of a byte list, as a 32-byte list. -/
def sha256 (msg : List Nat) : List Nat :=
  let hv := (chunks64 (shaPad msg)).foldl shaCompress shaH0
  hv.flatMap wordToBytes

/-! ## HMAC-SHA256 and HKDF-SHA256 (model of `@noble/hashes` hkdf) -/

/-- HMAC-SHA256. -/
def hmacSha256 (key msg : List Nat) : List Nat :=
  let k0 := if key.length > 64 then sha256 key else key
  let kp := k0 ++ List.replicate (64 - k0.length) 0
  let ipad := kp.map (· ^^^ 0x36)
  let opad := kp.map (· ^^^ 0x5c)
  sha256 (opad ++ sha256 (ipad ++ msg))

/-- HKDF-Extract. -/
def hkdfExtract (salt ikm : List Nat) : List Nat := hmacSha256 salt ikm

/-- HKDF-Expand output blocks: `n` blocks `T(i+1), …` given the previous
block `prev` (initially empty) and one-based starting index `i`. -/
def hkdfExpandBlocks (prk info : List Nat) : Nat → List Nat → Nat → List Nat
  | 0, _, _ => []
  | n + 1, prev, i =>
      let t := hmacSha256 prk (prev ++ info ++ [i % 256])
      t ++ hkdfExpandBlocks prk info n t (i + 1)

/-- HKDF-SHA256 with output length `L`. -/
def hkdf (ikm salt info : List Nat) (L : Nat) : List Nat :=
  let prk := hkdfExtract salt ikm
  (hkdfExpandBlocks prk info ((L + 31) / 32) [] 1).take L

/-! ## Protocol constants (`psk-types.ts`) -/

/-- UTF-8 bytes of an ASCII string literal (all constants below are ASCII,
mirroring `new TextEncoder().encode(...)`). -/
def strBytes (s : String) : List Nat := s.data.map Char.toNat

namespace PSK_PROTOCOL

def VERSION : Nat := 0x01
def PROTOCOL_ID : Nat := 0x02
def HEADER_SIZE : Nat := 130
def TAG_SIZE : Nat := 16
def ENCRYPTED_SENDER_KEY_SIZE : Nat := 48
def MAX_PAYLOAD_SIZE : Nat := 878
def SESSION_SIZE : Nat := 100
def COUNTER_WINDOW : Nat := 200

end PSK_PROTOCOL

namespace PSK_HKDF

def SESSION_SALT : String := "AlgoChat-PSK-Session"
def POSITION_SALT : String := "AlgoChat-PSK-Position"
def HYBRID_INFO_PFX : String := "AlgoChatV1-PSK"
def SENDER_KEY_INFO_PFX : String := "AlgoChatV1-PSK-SenderKey"

end PSK_HKDF

/-! ## Two-level ratchet (`psk-ratchet.ts`) -/

def SESSION_SALT : List Nat := strBytes PSK_HKDF.SESSION_SALT
def POSITION_SALT : List Nat := strBytes PSK_HKDF.POSITION_SALT
def hybridInfoPrefixBytes : List Nat := strBytes PSK_HKDF.HYBRID_INFO_PFX
def senderKeyInfoPrefixBytes : List Nat := strBytes PSK_HKDF.SENDER_KEY_INFO_PFX

/-- `uint32BE(value)`: 4-byte big-endian encoding.  `DataView.setUint32`
coerces its argument to an unsigned 32-bit integer, hence the `w32`. -/
def uint32BE (value : Nat) : List Nat := wordToBytes (w32 value)

/-- `deriveSessionPSK`:
`HKDF(SHA256, IKM=initialPSK, salt="AlgoChat-PSK-Session", info=sessionIndex as 4-byte BE)`. -/
def deriveSessionPSK (initialPSK : List Nat) (sessionIndex : Nat) : List Nat :=
  hkdf initialPSK SESSION_SALT (uint32BE sessionIndex) 32

/-- `derivePositionPSK`:
`HKDF(SHA256, IKM=sessionPSK, salt="AlgoChat-PSK-Position", info=position as 4-byte BE)`. -/
def derivePositionPSK (sessionPSK : List Nat) (position : Nat) : List Nat :=
  hkdf sessionPSK POSITION_SALT (uint32BE position) 32

/-- `derivePSKAtCounter`: two-level ratchet,
`session = counter / SESSION_SIZE`, `position = counter % SESSION_SIZE`. -/
def derivePSKAtCounter (initialPSK : List Nat) (counter : Nat) : List Nat :=
  let sessionIndex := counter / PSK_PROTOCOL.SESSION_SIZE
  let position := counter % PSK_PROTOCOL.SESSION_SIZE
  let sessionPSK := deriveSessionPSK initialPSK sessionIndex
  derivePositionPSK sessionPSK position

/-- `deriveHybridSymmetricKey`: `IKM = sharedSecret ‖ currentPSK`,
`salt = ephPub`, `info = "AlgoChatV1-PSK" ‖ senderPub ‖ recipientPub`. -/
def deriveHybridSymmetricKey (sharedSecret currentPSK ephPub senderPub recipientPub :
    List Nat) : List Nat :=
  let ikm := sharedSecret ++ currentPSK
  let info := hybridInfoPrefixBytes ++ senderPub ++ recipientPub
  hkdf ikm ephPub info 32

/-- `deriveSenderKey`: `IKM = senderSharedSecret ‖ currentPSK`,
`salt = ephPub`, `info = "AlgoChatV1-PSK-SenderKey" ‖ senderPub`. -/
def deriveSenderKey (senderSharedSecret currentPSK ephPub senderPub : List Nat) :
    List Nat :=
  let ikm := senderSharedSecret ++ currentPSK
  let info := senderKeyInfoPrefixBytes ++ senderPub
  hkdf ikm ephPub info 32

/-- Exact 4-byte big-endian encoding, written from the claim's words
("be32 is the 4-byte big-endian encoding") for comparison with the
source-derived `uint32BE`. -/
def specBe32 (n : Nat) : List Nat :=
  [n >>> 24 % 256, n >>> 16 % 256, n >>> 8 % 256, n % 256]

/-! ## Counter state (`psk-state.ts`)

JavaScript mutates the `PSKState` object in place; the embedding passes
state explicitly.  `validateReceiveCounter` performs no assignment, so its
embedding returns the threaded state alongside the boolean;
`recordReceivedCounter` returns the updated state.  `Math.max(0, x − W)`
on JavaScript numbers coincides with truncated subtraction on `Nat`. -/

structure PSKState where
  initialPSK : List Nat
  sendCounter : Nat
  receiveCounter : Nat
  receivedCounters : Finset Nat
deriving DecidableEq

/-- `createPSKState`: requires a 32-byte PSK, starts both counters at 0
with an empty seen set. -/
def createPSKState (initialPSK : List Nat) : Except String PSKState :=
  if initialPSK.length ≠ 32 then .error "PSK must be 32 bytes"
  else .ok { initialPSK := initialPSK, sendCounter := 0, receiveCounter := 0,
             receivedCounters := ∅ }

/-- `advanceSendCounter`: returns the current counter and increments it;
throws `Send counter overflow` when the counter exceeds `0xFFFFFFFF`. -/
def advanceSendCounter (state : PSKState) : Except String (Nat × PSKState) :=
  let counter := state.sendCounter
  if counter > 0xFFFFFFFF then .error "Send counter overflow"
  else .ok (counter, { state with sendCounter := counter + 1 })

/-- `validateReceiveCounter`: replay check, bootstrap on an empty seen set,
then the `[receiveCounter − WINDOW, receiveCounter + WINDOW]` bounds. -/
def validateReceiveCounter (state : PSKState) (counter : Nat) : Bool × PSKState :=
  if counter ∈ state.receivedCounters then (false, state)
  else if state.receivedCounters.card = 0 then (true, state)
  else
    let lowerBound := state.receiveCounter - PSK_PROTOCOL.COUNTER_WINDOW
    let upperBound := state.receiveCounter + PSK_PROTOCOL.COUNTER_WINDOW
    (decide (lowerBound ≤ counter) && decide (counter ≤ upperBound), state)

/-- `pruneCounters`: delete every seen counter below
`receiveCounter − COUNTER_WINDOW`. -/
def pruneCounters (state : PSKState) : PSKState :=
  let lowerBound := state.receiveCounter - PSK_PROTOCOL.COUNTER_WINDOW
  { state with
    receivedCounters := state.receivedCounters.filter (fun c => ¬ c < lowerBound) }

/-- `recordReceivedCounter`: insert into the seen set, raise the high-water
mark, prune. -/
def recordReceivedCounter (state : PSKState) (counter : Nat) : PSKState :=
  let s1 := { state with receivedCounters := insert counter state.receivedCounters }
  let s2 := if counter > s1.receiveCounter then { s1 with receiveCounter := counter }
            else s1
  pruneCounters s2

/-! ## Envelope codec (`psk-envelope.ts`) -/

structure PSKEnvelope where
  version : Nat
  protocolId : Nat
  counter : Nat
  senderPublicKey : List Nat
  ephemeralPublicKey : List Nat
  nonce : List Nat
  encryptedSenderKey : List Nat
  ciphertext : List Nat
deriving DecidableEq

/-- `Uint8Array.set(src, off)` / indexed stores: overwrite `buf` from
offset `off` with `src` (the source only performs in-bounds writes). -/
def writeAt (buf : List Nat) (off : Nat) (src : List Nat) : List Nat :=
  buf.take off ++ src ++ buf.drop (off + src.length)

/-- `encodePSKEnvelope`: allocate `HEADER_SIZE + |ciphertext|` zero bytes and
write the fields at their fixed offsets.  Single-byte stores coerce modulo
256 (`Uint8Array` semantics); `setUint32` truncates to 32 bits. -/
def encodePSKEnvelope (envelope : PSKEnvelope) : List Nat :=
  let totalSize := PSK_PROTOCOL.HEADER_SIZE + envelope.ciphertext.length
  let buf0 := List.replicate totalSize 0
  let buf1 := writeAt buf0 0 [envelope.version % 256]
  let buf2 := writeAt buf1 1 [envelope.protocolId % 256]
  let buf3 := writeAt buf2 2 (uint32BE envelope.counter)
  let buf4 := writeAt buf3 6 envelope.senderPublicKey
  let buf5 := writeAt buf4 38 envelope.ephemeralPublicKey
  let buf6 := writeAt buf5 70 envelope.nonce
  let buf7 := writeAt buf6 82 envelope.encryptedSenderKey
  writeAt buf7 130 envelope.ciphertext

/-- `DataView.getUint32(i, false)`: big-endian 32-bit read at offset `i`. -/
def getUint32BE (data : List Nat) (i : Nat) : Nat :=
  data.getD i 0 * 16777216 + data.getD (i + 1) 0 * 65536 +
    data.getD (i + 2) 0 * 256 + data.getD (i + 3) 0

/-- `Uint8Array.slice(a, b)`. -/
def jsSlice (data : List Nat) (a b : Nat) : List Nat := (data.take b).drop a

/-- `decodePSKEnvelope`: length and discriminator checks, then fixed slices. -/
def decodePSKEnvelope (data : List Nat) : Except String PSKEnvelope :=
  if data.length < 2 then .error "Data too short"
  else
    let version := data.getD 0 0
    let protocolId := data.getD 1 0
    if version ≠ PSK_PROTOCOL.VERSION then .error "Unsupported version"
    else if protocolId ≠ PSK_PROTOCOL.PROTOCOL_ID then .error "Not a PSK envelope"
    else if data.length < PSK_PROTOCOL.HEADER_SIZE + PSK_PROTOCOL.TAG_SIZE then
      .error "Data too short"
    else
      .ok { version := version, protocolId := protocolId,
            counter := getUint32BE data 2,
            senderPublicKey := jsSlice data 6 38,
            ephemeralPublicKey := jsSlice data 38 70,
            nonce := jsSlice data 70 82,
            encryptedSenderKey := jsSlice data 82 130,
            ciphertext := data.drop 130 }

/-- `isPSKMessage`: classification predicate. -/
def isPSKMessage (data : List Nat) : Bool :=
  decide (data.length ≥ PSK_PROTOCOL.HEADER_SIZE + PSK_PROTOCOL.TAG_SIZE) &&
    decide (data.getD 0 0 = PSK_PROTOCOL.VERSION) &&
    decide (data.getD 1 0 = PSK_PROTOCOL.PROTOCOL_ID)

/-! ## X25519 model (`@noble/curves` x25519)

The repository treats X25519 as a black-box Diffie-Hellman primitive:
`getPublicKey` derives a public key from a secret, `getSharedSecret`
combines a secret with a peer public key, and the source relies only on
the DH agreement law.  The model realises this as exponentiation in the
multiplicative group modulo `2²⁵⁵ − 19` (the X25519 field prime) with the
curve's base-point coordinate 9 as generator, keys transported as 32-byte
little-endian strings exactly as on the wire. -/

def curveP : Nat := 2 ^ 255 - 19

def curveG : Nat := 9

/-- Little-endian byte-string value. -/
def bytesToNatLE : List Nat → Nat
  | [] => 0
  | b :: rest => b + 256 * bytesToNatLE rest

/-- `n`-byte little-endian encoding. -/
def natToBytesLE : Nat → Nat → List Nat
  | 0, _ => []
  | n + 1, v => v % 256 :: natToBytesLE n (v / 256)

/-- `x25519.getPublicKey`. -/
def x25519GetPublicKey (priv : List Nat) : List Nat :=
  natToBytesLE 32 (curveG ^ bytesToNatLE priv % curveP)

/-- `x25519.getSharedSecret`. -/
def x25519GetSharedSecret (priv pub : List Nat) : List Nat :=
  natToBytesLE 32 (bytesToNatLE pub ^ bytesToNatLE priv % curveP)

/-- `uint8ArrayEquals` (from `@corvidlabs/ts-algochat`). -/
def uint8ArrayEquals (a b : List Nat) : Bool := decide (a = b)

/-! ## ChaCha20-Poly1305 model (`@noble/ciphers` chacha20poly1305)

The source uses the AEAD as a black box: `encrypt` appends a 16-byte tag,
`decrypt` verifies the tag and throws on mismatch, and
`decrypt(k, n, encrypt(k, n, m)) = m`.  The model is a generic
stream-cipher-with-MAC construction over the embedded SHA-256: the
keystream is XORed onto the message and the tag is a hash of key, nonce
and ciphertext body — exposing exactly the interface laws above. -/

/-- Keystream blocks `i, i+1, …` (32 bytes each). -/
def aeadBlocks (key nonce : List Nat) : Nat → Nat → List Nat
  | 0, _ => []
  | n + 1, i => sha256 (key ++ nonce ++ uint32BE i) ++ aeadBlocks key nonce n (i + 1)

/-- `len` bytes of keystream. -/
def aeadKeystream (key nonce : List Nat) (len : Nat) : List Nat :=
  (aeadBlocks key nonce ((len + 31) / 32) 0).take len

/-- 16-byte authentication tag over the ciphertext body. -/
def aeadTag (key nonce body : List Nat) : List Nat :=
  (sha256 (key ++ nonce ++ body)).take 16

/-- Byte-wise XOR (truncating to the shorter list). -/
def zipXor (a b : List Nat) : List Nat := List.zipWith (fun x y => x ^^^ y) a b

/-- `cipher.encrypt`: ciphertext body followed by the 16-byte tag. -/
def chachaEncrypt (key nonce msg : List Nat) : List Nat :=
  let body := zipXor msg (aeadKeystream key nonce msg.length)
  body ++ aeadTag key nonce body

/-- `cipher.decrypt`: verify the tag, then strip the keystream; `none`
models the throw on authentication failure. -/
def chachaDecrypt (key nonce data : List Nat) : Option (List Nat) :=
  if data.length < 16 then none
  else
    let body := data.take (data.length - 16)
    let tag := data.drop (data.length - 16)
    if tag = aeadTag key nonce body
    then some (zipXor body (aeadKeystream key nonce body.length))
    else none

/-! ## JSON model (`JSON.parse` subset)

`parsePSKPayload` feeds decrypted text into `JSON.parse`.  The model
parses the JSON fragment the payload convention uses — objects with
string keys whose values are strings, integers, booleans, `null`, nested
objects or arrays, with the common escapes — and fails (as the
`catch`-to-plain-text path) elsewhere.  Strings are byte lists (UTF-8),
matching the byte-level embedding of JavaScript strings. -/

inductive Json where
  | jnull
  | jbool (b : Bool)
  | jnum (n : Int)
  | jstr (s : List Nat)
  | jarr (elems : List Json)
  | jobj (fields : List (List Nat × Json))

/-- Skip JSON whitespace. -/
def skipWs : List Nat → List Nat
  | 32 :: rest => skipWs rest
  | 9 :: rest => skipWs rest
  | 10 :: rest => skipWs rest
  | 13 :: rest => skipWs rest
  | l => l

/-- One-character JSON escapes. -/
def jsonEscapeChar (c : Nat) : Option Nat :=
  if c = 34 ∨ c = 92 ∨ c = 47 then some c
  else if c = 110 then some 10
  else if c = 116 then some 9
  else if c = 114 then some 13
  else if c = 98 then some 8
  else if c = 102 then some 12
  else none

/-- String body after the opening quote: contents and the remainder after
the closing quote. -/
def parseStringBody : List Nat → Option (List Nat × List Nat)
  | [] => none
  | 34 :: rest => some ([], rest)
  | 92 :: rest =>
      match rest with
      | [] => none
      | c :: rest' =>
          match jsonEscapeChar c, parseStringBody rest' with
          | some d, some (s, r) => some (d :: s, r)
          | _, _ => none
  | c :: rest =>
      match parseStringBody rest with
      | some (s, r) => some (c :: s, r)
      | none => none

/-- Digit run (at least one digit): value and remainder. -/
def parseDigits : List Nat → Nat → Option (Nat × List Nat)
  | c :: rest, acc =>
      if 48 ≤ c ∧ c ≤ 57 then
        match parseDigits rest (acc * 10 + (c - 48)) with
        | some r => some r
        | none => some (acc * 10 + (c - 48), rest)
      else none
  | [], _ => none

/-- JSON value parser (fuelled so that it reduces in the kernel).  Objects
and arrays are parsed one member at a time, the rest of the collection
re-entered through the recursive call. -/
def jsonParseVal : Nat → List Nat → Option (Json × List Nat)
  | 0, _ => none
  | fuel + 1, input =>
    match skipWs input with
    | 34 :: rest =>
        (parseStringBody rest).map (fun p => (.jstr p.1, p.2))
    | 110 :: 117 :: 108 :: 108 :: rest => some (.jnull, rest)
    | 116 :: 114 :: 117 :: 101 :: rest => some (.jbool true, rest)
    | 102 :: 97 :: 108 :: 115 :: 101 :: rest => some (.jbool false, rest)
    | 45 :: rest =>
        (parseDigits rest 0).map (fun p => (.jnum (-(p.1 : Int)), p.2))
    | 123 :: rest =>
        (match skipWs rest with
         | 125 :: rest' => some (.jobj [], rest')
         | 34 :: rest' =>
             match parseStringBody rest' with
             | none => none
             | some (key, r1) =>
                 match skipWs r1 with
                 | 58 :: r2 =>
                     match jsonParseVal fuel r2 with
                     | none => none
                     | some (v, r3) =>
                         match skipWs r3 with
                         | 125 :: r4 => some (.jobj [(key, v)], r4)
                         | 44 :: r4 =>
                             match jsonParseVal fuel (123 :: r4) with
                             | some (.jobj fields, r5) =>
                                 some (.jobj ((key, v) :: fields), r5)
                             | _ => none
                         | _ => none
                 | _ => none
         | _ => none)
    | 91 :: rest =>
        (match skipWs rest with
         | 93 :: rest' => some (.jarr [], rest')
         | r0 =>
             match jsonParseVal fuel r0 with
             | none => none
             | some (v, r1) =>
                 match skipWs r1 with
                 | 93 :: r2 => some (.jarr [v], r2)
                 | 44 :: r2 =>
                     match jsonParseVal fuel (91 :: r2) with
                     | some (.jarr elems, r3) => some (.jarr (v :: elems), r3)
                     | _ => none
                 | _ => none)
    | c :: rest =>
        if 48 ≤ c ∧ c ≤ 57 then
          (parseDigits (c :: rest) 0).map (fun p => ((.jnum (p.1 : Int)), p.2))
        else none
    | [] => none

/-- `JSON.parse`: a full parse of the input, trailing whitespace allowed. -/
def jsonParse (input : List Nat) : Option Json :=
  match jsonParseVal (2 * input.length + 2) input with
  | some (v, rest) => if skipWs rest = [] then some v else none
  | none => none

/-- Property access `obj[key]` on a parsed JSON value (later duplicate keys
win, as in JavaScript object literals). -/
def jsonGet (j : Json) (key : String) : Option Json :=
  match j with
  | .jobj fields =>
      (fields.reverse.find? (fun f => decide (f.1 = strBytes key))).map (·.2)
  | _ => none

/-! ## Hybrid encryption (`psk-encryption.ts`)

The CSPRNG outputs (`x25519.utils.randomSecretKey()` and
`randomBytes(12)`) are passed in explicitly as `ephPriv` and `nonce`;
text is carried as its UTF-8 bytes. -/

/-- Decrypted PSK message content (`PSKDecryptedContent`). -/
structure PSKDecryptedContent where
  text : List Nat
  counter : Nat
  replyToId : Option (List Nat)
  replyToPreview : Option (List Nat)
deriving DecidableEq

/-- `parsePSKPayload`: key-publish filtering and the `{text, replyTo}`
convention; anything else falls through to plain text. -/
def parsePSKPayload (data : List Nat) (counter : Nat) : Option PSKDecryptedContent :=
  match data with
  | 123 :: _ =>
      (match jsonParse data with
       | some json =>
           if (match jsonGet json "type" with
               | some (.jstr t) => decide (t = strBytes "key-publish")
               | _ => false) then
             none
           else
             match jsonGet json "text" with
             | some (.jstr t) =>
                 let replyTo := jsonGet json "replyTo"
                 some { text := t, counter := counter,
                        replyToId :=
                          match replyTo.bind (fun r => jsonGet r "txid") with
                          | some (.jstr s) => some s
                          | _ => none,
                        replyToPreview :=
                          match replyTo.bind (fun r => jsonGet r "preview") with
                          | some (.jstr s) => some s
                          | _ => none }
             | _ => some { text := data, counter := counter,
                           replyToId := none, replyToPreview := none }
       | none => some { text := data, counter := counter,
                        replyToId := none, replyToPreview := none })
  | _ => some { text := data, counter := counter,
                replyToId := none, replyToPreview := none }

/-- `pskEncryptMessage` (randomness explicit). -/
def pskEncryptMessage (plaintext senderPublicKey recipientPublicKey initialPSK :
    List Nat) (counter : Nat) (ephPriv nonce : List Nat) :
    Except String PSKEnvelope :=
  if plaintext.length > PSK_PROTOCOL.MAX_PAYLOAD_SIZE then
    .error "Message too large"
  else
    let currentPSK := derivePSKAtCounter initialPSK counter
    let ephPub := x25519GetPublicKey ephPriv
    let sharedSecret := x25519GetSharedSecret ephPriv recipientPublicKey
    let symmetricKey := deriveHybridSymmetricKey sharedSecret currentPSK ephPub
      senderPublicKey recipientPublicKey
    let ciphertextWithTag := chachaEncrypt symmetricKey nonce plaintext
    let senderSharedSecret := x25519GetSharedSecret ephPriv senderPublicKey
    let senderEncryptionKey := deriveSenderKey senderSharedSecret currentPSK ephPub
      senderPublicKey
    let encryptedSenderKey := chachaEncrypt senderEncryptionKey nonce symmetricKey
    .ok { version := PSK_PROTOCOL.VERSION, protocolId := PSK_PROTOCOL.PROTOCOL_ID,
          counter := counter, senderPublicKey := senderPublicKey,
          ephemeralPublicKey := ephPub, nonce := nonce,
          encryptedSenderKey := encryptedSenderKey, ciphertext := ciphertextWithTag }

/-- `pskDecryptAsRecipient`. -/
def pskDecryptAsRecipient (envelope : PSKEnvelope)
    (recipientPrivateKey recipientPublicKey currentPSK : List Nat) :
    Option (List Nat) :=
  let sharedSecret := x25519GetSharedSecret recipientPrivateKey
    envelope.ephemeralPublicKey
  let symmetricKey := deriveHybridSymmetricKey sharedSecret currentPSK
    envelope.ephemeralPublicKey envelope.senderPublicKey recipientPublicKey
  chachaDecrypt symmetricKey envelope.nonce envelope.ciphertext

/-- `pskDecryptAsSender`. -/
def pskDecryptAsSender (envelope : PSKEnvelope)
    (senderPrivateKey senderPublicKey currentPSK : List Nat) :
    Option (List Nat) :=
  let senderSharedSecret := x25519GetSharedSecret senderPrivateKey
    envelope.ephemeralPublicKey
  let senderDecryptionKey := deriveSenderKey senderSharedSecret currentPSK
    envelope.ephemeralPublicKey senderPublicKey
  (chachaDecrypt senderDecryptionKey envelope.nonce
    envelope.encryptedSenderKey).bind
    (fun symmetricKey => chachaDecrypt symmetricKey envelope.nonce
      envelope.ciphertext)

/-- `pskDecryptMessage`: the outer `none` models a decryption throw; the
inner `none` is the `null` returned for filtered key-publish payloads. -/
def pskDecryptMessage (envelope : PSKEnvelope)
    (myPrivateKey myPublicKey initialPSK : List Nat) :
    Option (Option PSKDecryptedContent) :=
  let weAreSender := uint8ArrayEquals myPublicKey envelope.senderPublicKey
  let currentPSK := derivePSKAtCounter initialPSK envelope.counter
  let plaintext :=
    if weAreSender then
      pskDecryptAsSender envelope myPrivateKey myPublicKey currentPSK
    else
      pskDecryptAsRecipient envelope myPrivateKey myPublicKey currentPSK
  plaintext.map (fun pt => parsePSKPayload pt envelope.counter)

/-! ## String builtins used by the exchange URI (`psk-exchange.ts`)

Models of the JavaScript platform functions the URI code calls:
`encodeURIComponent` / `decodeURIComponent`, `URLSearchParams` (splitting on
`&`, splitting each piece at the first `=`, plus-to-space and UTF-8
percent-decoding of keys and values, first match wins), `btoa` / `atob`.
Strings are lists of Unicode scalar values (`Char`). -/

/-- UTF-8 bytes of one scalar value. -/
def utf8EncodeNat (n : Nat) : List Nat :=
  if n < 0x80 then [n]
  else if n < 0x800 then [0xC0 + n / 64, 0x80 + n % 64]
  else if n < 0x10000 then
    [0xE0 + n / 4096, 0x80 + n / 64 % 64, 0x80 + n % 64]
  else
    [0xF0 + n / 262144, 0x80 + n / 4096 % 64, 0x80 + n / 64 % 64, 0x80 + n % 64]

/-- UTF-8 encoding of a string. -/
def utf8Encode (l : List Char) : List Nat := l.flatMap (fun c => utf8EncodeNat c.toNat)

/-- The characters `encodeURIComponent` leaves unescaped. -/
def isUriUnreserved (c : Char) : Bool :=
  (decide ('A' ≤ c) && decide (c ≤ 'Z')) ||
  (decide ('a' ≤ c) && decide (c ≤ 'z')) ||
  (decide ('0' ≤ c) && decide (c ≤ '9')) ||
  decide (c = '-') || decide (c = '_') || decide (c = '.') || decide (c = '!') ||
  decide (c = '~') || decide (c = '*') || decide (c = '\'') ||
  decide (c = '(') || decide (c = ')')

/-- Uppercase hexadecimal digit. -/
def hexUpper (n : Nat) : Char :=
  if n < 10 then Char.ofNat (48 + n) else Char.ofNat (55 + n)

/-- `%XX` escape of one byte. -/
def percentEncodeByte (b : Nat) : List Char :=
  ['%', hexUpper (b / 16), hexUpper (b % 16)]

/-- `encodeURIComponent`. -/
def encodeURIComponent (l : List Char) : List Char :=
  l.flatMap (fun c =>
    if isUriUnreserved c then [c]
    else (utf8EncodeNat c.toNat).flatMap percentEncodeByte)

/-- Hexadecimal digit predicate (both cases). -/
def isHexDigit (c : Char) : Bool :=
  (decide ('0' ≤ c) && decide (c ≤ '9')) ||
  (decide ('A' ≤ c) && decide (c ≤ 'F')) ||
  (decide ('a' ≤ c) && decide (c ≤ 'f'))

/-- Value of a hexadecimal digit. -/
def hexVal (c : Char) : Nat :=
  if decide ('0' ≤ c) && decide (c ≤ '9') then c.toNat - 48
  else if decide ('A' ≤ c) && decide (c ≤ 'F') then c.toNat - 55
  else c.toNat - 87

/-- `application/x-www-form-urlencoded` byte expansion: `%XX` escapes become
bytes, other characters contribute their UTF-8 bytes, invalid escapes pass
the `%` through. -/
def percentDecodeBytesAux : Nat → List Char → List Nat
  | 0, _ => []
  | _ + 1, [] => []
  | fuel + 1, c :: rest =>
      if c = '%' then
        match rest with
        | h1 :: h2 :: rest2 =>
            if isHexDigit h1 && isHexDigit h2 then
              (hexVal h1 * 16 + hexVal h2) :: percentDecodeBytesAux fuel rest2
            else utf8EncodeNat c.toNat ++ percentDecodeBytesAux fuel rest
        | _ => utf8EncodeNat c.toNat ++ percentDecodeBytesAux fuel rest
      else utf8EncodeNat c.toNat ++ percentDecodeBytesAux fuel rest

def percentDecodeBytes (l : List Char) : List Nat :=
  percentDecodeBytesAux l.length l

/-- Lossy UTF-8 decoding (fuelled; invalid bytes decode to U+FFFD). -/
def utf8DecodeLossyAux : Nat → List Nat → List Char
  | 0, _ => []
  | _ + 1, [] => []
  | fuel + 1, b :: rest =>
      if b < 0x80 then Char.ofNat b :: utf8DecodeLossyAux fuel rest
      else if 0xC2 ≤ b ∧ b < 0xE0 then
        match rest with
        | b2 :: rest2 =>
            if 0x80 ≤ b2 ∧ b2 < 0xC0 then
              Char.ofNat ((b - 0xC0) * 64 + (b2 - 0x80)) ::
                utf8DecodeLossyAux fuel rest2
            else Char.ofNat 0xFFFD :: utf8DecodeLossyAux fuel rest
        | [] => [Char.ofNat 0xFFFD]
      else if 0xE0 ≤ b ∧ b < 0xF0 then
        match rest with
        | b2 :: b3 :: rest3 =>
            if (0x80 ≤ b2 ∧ b2 < 0xC0) ∧ (0x80 ≤ b3 ∧ b3 < 0xC0) then
              Char.ofNat ((b - 0xE0) * 4096 + (b2 - 0x80) * 64 + (b3 - 0x80)) ::
                utf8DecodeLossyAux fuel rest3
            else Char.ofNat 0xFFFD :: utf8DecodeLossyAux fuel rest
        | _ => Char.ofNat 0xFFFD :: utf8DecodeLossyAux fuel rest
      else if 0xF0 ≤ b ∧ b < 0xF5 then
        match rest with
        | b2 :: b3 :: b4 :: rest4 =>
            if (0x80 ≤ b2 ∧ b2 < 0xC0) ∧ (0x80 ≤ b3 ∧ b3 < 0xC0) ∧
               (0x80 ≤ b4 ∧ b4 < 0xC0) then
              Char.ofNat ((b - 0xF0) * 262144 + (b2 - 0x80) * 4096 +
                  (b3 - 0x80) * 64 + (b4 - 0x80)) ::
                utf8DecodeLossyAux fuel rest4
            else Char.ofNat 0xFFFD :: utf8DecodeLossyAux fuel rest
        | _ => Char.ofNat 0xFFFD :: utf8DecodeLossyAux fuel rest
      else Char.ofNat 0xFFFD :: utf8DecodeLossyAux fuel rest

/-- Lossy UTF-8 decoding. -/
def utf8DecodeLossy (bytes : List Nat) : List Char :=
  utf8DecodeLossyAux bytes.length bytes

/-- `URLSearchParams` plus-to-space. -/
def plusToSpace (l : List Char) : List Char :=
  l.map (fun c => if c = '+' then ' ' else c)

/-- `URLSearchParams` key/value decoding. -/
def wwwFormDecode (l : List Char) : List Char :=
  utf8DecodeLossy (percentDecodeBytes (plusToSpace l))

/-- Split on `&` (keeping empty pieces; they are filtered later). -/
def splitOnAmp : List Char → List (List Char)
  | [] => [[]]
  | c :: rest =>
      match splitOnAmp rest with
      | [] => if c = '&' then [[], []] else [[c]]
      | h :: t => if c = '&' then [] :: h :: t else (c :: h) :: t

/-- Split a `key=value` piece at the first `=` (no `=`: empty value). -/
def splitPair : List Char → List Char × List Char
  | [] => ([], [])
  | c :: rest =>
      if c = '=' then ([], rest)
      else
        let p := splitPair rest
        (c :: p.1, p.2)

/-- `new URLSearchParams(query).get(key)`: first matching pair's value. -/
def urlParamsGet (query : List Char) (key : List Char) : Option (List Char) :=
  ((((splitOnAmp query).filter (fun p => ¬ p = [])).map
      (fun piece => (wwwFormDecode (splitPair piece).1,
                     wwwFormDecode (splitPair piece).2))).find?
    (fun p => decide (p.1 = key))).map (·.2)

/-- Read a `%XX` escape. -/
def readPct : List Char → Option (Nat × List Char)
  | c :: h1 :: h2 :: rest =>
      if c = '%' && isHexDigit h1 && isHexDigit h2 then
        some (hexVal h1 * 16 + hexVal h2, rest)
      else none
  | _ => none

/-- `decodeURIComponent` (fuelled): strict UTF-8 decoding of escape runs,
`none` models the `URIError` throw. -/
def decURIAux : Nat → List Char → Option (List Char)
  | 0, l => if l = [] then some [] else none
  | _ + 1, [] => some []
  | fuel + 1, c :: rest =>
      if c = '%' then
      match readPct (c :: rest) with
      | none => none
      | some (b, r1) =>
          if b < 0x80 then (decURIAux fuel r1).map (Char.ofNat b :: ·)
          else if b < 0xC2 then none
          else if b < 0xE0 then
            match readPct r1 with
            | some (b2, r2) =>
                if 0x80 ≤ b2 ∧ b2 < 0xC0 then
                  (decURIAux fuel r2).map
                    (Char.ofNat ((b - 0xC0) * 64 + (b2 - 0x80)) :: ·)
                else none
            | none => none
          else if b < 0xF0 then
            match readPct r1 with
            | some (b2, r2) =>
                match readPct r2 with
                | some (b3, r3) =>
                    if (0x80 ≤ b2 ∧ b2 < 0xC0) ∧ (0x80 ≤ b3 ∧ b3 < 0xC0) then
                      (decURIAux fuel r3).map
                        (Char.ofNat ((b - 0xE0) * 4096 + (b2 - 0x80) * 64 +
                          (b3 - 0x80)) :: ·)
                    else none
                | none => none
            | none => none
          else if b < 0xF5 then
            match readPct r1 with
            | some (b2, r2) =>
                match readPct r2 with
                | some (b3, r3) =>
                    match readPct r3 with
                    | some (b4, r4) =>
                        if (0x80 ≤ b2 ∧ b2 < 0xC0) ∧ (0x80 ≤ b3 ∧ b3 < 0xC0) ∧
                           (0x80 ≤ b4 ∧ b4 < 0xC0) then
                          (decURIAux fuel r4).map
                            (Char.ofNat ((b - 0xF0) * 262144 +
                              (b2 - 0x80) * 4096 + (b3 - 0x80) * 64 +
                              (b4 - 0x80)) :: ·)
                        else none
                    | none => none
                | none => none
            | none => none
          else none
      else (decURIAux fuel rest).map (c :: ·)

/-- `decodeURIComponent`. -/
def decodeURIComponentM (l : List Char) : Option (List Char) :=
  decURIAux l.length l

/-- Base64 alphabet. -/
def b64Alphabet (i : Nat) : Char :=
  if i < 26 then Char.ofNat (65 + i)
  else if i < 52 then Char.ofNat (71 + i)
  else if i < 62 then Char.ofNat (i - 4)
  else if i = 62 then '+'
  else '/'

/-- Base64 digit value. -/
def b64Value (c : Char) : Option Nat :=
  if decide ('A' ≤ c) && decide (c ≤ 'Z') then some (c.toNat - 65)
  else if decide ('a' ≤ c) && decide (c ≤ 'z') then some (c.toNat - 71)
  else if decide ('0' ≤ c) && decide (c ≤ '9') then some (c.toNat + 4)
  else if c = '+' then some 62
  else if c = '/' then some 63
  else none

/-- `btoa` on the byte string built by `String.fromCharCode`. -/
def btoa : List Nat → List Char
  | b0 :: b1 :: b2 :: rest =>
      b64Alphabet (b0 / 4) :: b64Alphabet ((b0 % 4) * 16 + b1 / 16) ::
        b64Alphabet ((b1 % 16) * 4 + b2 / 64) :: b64Alphabet (b2 % 64) ::
        btoa rest
  | [b0, b1] =>
      [b64Alphabet (b0 / 4), b64Alphabet ((b0 % 4) * 16 + b1 / 16),
       b64Alphabet ((b1 % 16) * 4), '=']
  | [b0] =>
      [b64Alphabet (b0 / 4), b64Alphabet ((b0 % 4) * 16), '=', '=']
  | [] => []

/-- `atob`; `none` models the `InvalidCharacterError` throw. -/
def atob : List Char → Option (List Nat)
  | [] => some []
  | c0 :: c1 :: c2 :: c3 :: rest =>
      (match b64Value c0, b64Value c1 with
       | some v0, some v1 =>
           if c2 = '=' ∧ c3 = '=' ∧ rest = [] then some [v0 * 4 + v1 / 16]
           else if c3 = '=' ∧ rest = [] then
             match b64Value c2 with
             | some v2 => some [v0 * 4 + v1 / 16, (v1 % 16) * 16 + v2 / 4]
             | none => none
           else
             match b64Value c2, b64Value c3, atob rest with
             | some v2, some v3, some bs =>
                 some ((v0 * 4 + v1 / 16) :: ((v1 % 16) * 16 + v2 / 4) ::
                   ((v2 % 4) * 64 + v3) :: bs)
             | _, _, _ => none
       | _, _ => none)
  | _ => none

/-- The base64url replacement `+→-`, `/→_` (and its inverse below). -/
def b64UrlRepl (c : Char) : Char :=
  if c = '+' then '-' else if c = '/' then '_' else c

/-- Strip trailing `=` (the `/=+$/` replace). -/
def removeTrailingEq (l : List Char) : List Char :=
  (l.reverse.dropWhile (fun c => decide (c = '='))).reverse

/-- `uint8ArrayToBase64url`. -/
def uint8ArrayToBase64url (bytes : List Nat) : List Char :=
  removeTrailingEq ((btoa bytes).map b64UrlRepl)

/-- `base64urlToUint8Array`. -/
def base64urlToUint8Array (s : List Char) : Option (List Nat) :=
  let base64 := s.map (fun c => if c = '-' then '+' else if c = '_' then '/' else c)
  let padding := (4 - base64.length % 4) % 4
  atob (base64 ++ List.replicate padding '=')

/-! ## Exchange URI (`psk-exchange.ts`) -/

/-- Parsed PSK exchange URI (`PSKExchangeURI`). -/
structure PSKExchangeURI where
  address : String
  psk : List Nat
  label : String
deriving DecidableEq

/-- `createPSKExchangeURI`:
`algochat-psk://v1?addr={address}&psk={base64url}&label={urlencoded}`. -/
def createPSKExchangeURI (address : String) (psk : List Nat) (label : String) :
    Except String String :=
  if ¬ psk.length = 32 then .error "PSK must be 32 bytes"
  else
    .ok (String.mk ("algochat-psk://v1?addr=".data ++ address.data ++
      "&psk=".data ++ uint8ArrayToBase64url psk ++
      "&label=".data ++ encodeURIComponent label.data))

/-- `parsePSKExchangeURI`: scheme check, required `addr` and `psk` (the
JavaScript falsiness check rejects both missing and empty parameters),
base64url PSK of exactly 32 bytes, optional label decoded with
`decodeURIComponent`. -/
def parsePSKExchangeURI (uri : String) : Except String PSKExchangeURI :=
  let l := uri.data
  if ¬ l.take 18 = "algochat-psk://v1?".data then .error "Invalid PSK URI scheme"
  else
    let queryString := l.drop 18
    match urlParamsGet queryString "addr".data with
    | none => .error "Missing addr parameter"
    | some address =>
        if address = [] then .error "Missing addr parameter"
        else
          match urlParamsGet queryString "psk".data with
          | none => .error "Missing psk parameter"
          | some pskBase64url =>
              if pskBase64url = [] then .error "Missing psk parameter"
              else
                match base64urlToUint8Array pskBase64url with
                | none => .error "Invalid base64"
                | some psk =>
                    if ¬ psk.length = 32 then .error "PSK must be 32 bytes"
                    else
                      let label := (urlParamsGet queryString "label".data).getD []
                      match decodeURIComponentM label with
                      | none => .error "URIError: URI malformed"
                      | some lab =>
                          .ok { address := String.mk address, psk := psk,
                                label := String.mk lab }

end AlgoChat

namespace AlgoChat

/-! ## Theorems -/

/-- `uint32BE` agrees with the plain 4-byte big-endian encoding below `2³²`. -/
theorem uint32BE_eq_specBe32 {n : Nat} (h : n < 4294967296) :
    uint32BE n = specBe32 n := by
  simp [uint32BE, w32, wordToBytes, specBe32, Nat.mod_eq_of_lt h]

/-- **C6.** For every initial PSK and counter `c < 2³²`,
`derivePSKAtCounter(initialPSK, c)` equals
`HKDF(HKDF(initialPSK, "AlgoChat-PSK-Session", be32(c / 100), 32),
"AlgoChat-PSK-Position", be32(c mod 100), 32)`.  Determinism is inherent:
the embedding is a pure function of exactly these two inputs. -/
theorem derivePSKAtCounter_eq_two_level_hkdf (initialPSK : List Nat) (c : Nat)
    (hc : c < 4294967296) :
    derivePSKAtCounter initialPSK c =
      hkdf (hkdf initialPSK (strBytes "AlgoChat-PSK-Session") (specBe32 (c / 100)) 32)
        (strBytes "AlgoChat-PSK-Position") (specBe32 (c % 100)) 32 := by
  have hdiv : c / 100 < 4294967296 := lt_of_le_of_lt (Nat.div_le_self c 100) hc
  have hmod : c % 100 < 4294967296 := lt_of_le_of_lt (Nat.le_of_lt_succ
    (Nat.lt_succ_of_lt (Nat.mod_lt c (by norm_num)))) (by norm_num)
  simp only [derivePSKAtCounter, deriveSessionPSK, derivePositionPSK,
    PSK_PROTOCOL.SESSION_SIZE, SESSION_SALT, POSITION_SALT, PSK_HKDF.SESSION_SALT,
    PSK_HKDF.POSITION_SALT, uint32BE_eq_specBe32 hdiv, uint32BE_eq_specBe32 hmod]

/-- Witness for `derivePSKAtCounter_eq_two_level_hkdf` at `c = 12345`. -/
theorem derivePSKAtCounter_eq_two_level_hkdf_witness :
    (12345 : Nat) < 4294967296 ∧
    derivePSKAtCounter (List.replicate 32 0xAA) 12345 =
      hkdf (hkdf (List.replicate 32 0xAA) (strBytes "AlgoChat-PSK-Session")
          (specBe32 (12345 / 100)) 32)
        (strBytes "AlgoChat-PSK-Position") (specBe32 (12345 % 100)) 32 :=
  ⟨by norm_num, derivePSKAtCounter_eq_two_level_hkdf _ 12345 (by norm_num)⟩

set_option maxRecDepth 100000 in
/-- **C7.** With the initial PSK equal to 32 bytes of `0xAA`,
`deriveSessionPSK` at session 0 and `derivePSKAtCounter` at counters
0, 99 and 100 produce exactly the repository's ratchet test vectors. -/
theorem ratchet_known_answer_vectors :
    deriveSessionPSK (List.replicate 32 0xAA) 0 =
      [0xa0,0x31,0x70,0x7e,0xa9,0xe9,0xe5,0x0b,0xd8,0xea,0x4e,0xb9,0xa2,0xbd,0x36,0x84,
       0x65,0xea,0x1a,0xff,0x14,0xca,0xab,0x29,0x3d,0x38,0x95,0x4b,0x47,0x17,0xe8,0x88] ∧
    derivePSKAtCounter (List.replicate 32 0xAA) 0 =
      [0x29,0x18,0xfd,0x48,0x6b,0x9b,0xd0,0x24,0xd7,0x12,0xf6,0x23,0x4b,0x81,0x3c,0x0f,
       0x41,0x67,0x23,0x7d,0x60,0xc2,0xc1,0xfc,0xa3,0x73,0x26,0xb2,0x04,0x97,0xc1,0x65] ∧
    derivePSKAtCounter (List.replicate 32 0xAA) 99 =
      [0x5b,0x48,0xa5,0x0a,0x25,0x26,0x1f,0x6b,0x63,0xfe,0x9c,0x86,0x7b,0x46,0xbe,0x46,
       0xde,0x4d,0x74,0x7c,0x34,0x77,0xdb,0x62,0x90,0x04,0x5b,0xa5,0x19,0xa4,0xd3,0x8b] ∧
    derivePSKAtCounter (List.replicate 32 0xAA) 100 =
      [0x7a,0x15,0xd3,0xad,0xd6,0xa2,0x88,0x58,0xe6,0xa1,0xf1,0xea,0x0d,0x22,0xbd,0xb2,
       0x9b,0x7e,0x12,0x9a,0x13,0x30,0xc4,0x90,0x8d,0x9b,0x46,0xa4,0x60,0x99,0x26,0x94] :=
  ⟨by decide, by decide, by decide, by decide⟩

/-- **C2, counterexample.** At `sendCounter = 2³² − 1` the code does *not*
fail: it emits `2³² − 1` and advances the counter to `2³²`. -/
theorem advanceSendCounter_succeeds_at_max_u32 :
    advanceSendCounter ⟨[], 4294967295, 0, ∅⟩ =
      .ok (4294967295, ⟨[], 4294967296, 0, ∅⟩) := rfl

/-- **C2, amended.** `advanceSendCounter` fails with the counter-overflow
error exactly when `sendCounter` exceeds `2³² − 1`; for any
`sendCounter ≤ 2³² − 1` (including `2³² − 1` itself) it succeeds, emitting
the current value and incrementing. -/
theorem advanceSendCounter_overflow_iff (s : PSKState) :
    (4294967295 < s.sendCounter →
      advanceSendCounter s = .error "Send counter overflow") ∧
    (s.sendCounter ≤ 4294967295 →
      advanceSendCounter s =
        .ok (s.sendCounter, { s with sendCounter := s.sendCounter + 1 })) := by
  refine ⟨fun h => ?_, fun h => ?_⟩
  · simp [advanceSendCounter, h]
  · simp [advanceSendCounter, Nat.not_lt.mpr h]

/-- Witness for `advanceSendCounter_overflow_iff`: overflow at `2³²`,
success at 7. -/
theorem advanceSendCounter_overflow_iff_witness :
    advanceSendCounter ⟨[], 4294967296, 0, ∅⟩ = .error "Send counter overflow" ∧
    advanceSendCounter ⟨[], 7, 0, ∅⟩ = .ok (7, ⟨[], 8, 0, ∅⟩) :=
  ⟨(advanceSendCounter_overflow_iff _).1 (by norm_num),
   (advanceSendCounter_overflow_iff _).2 (by norm_num)⟩

/-- **C5.** On an empty seen set `validateReceiveCounter` accepts every
counter below `2³²`; on a non-empty seen set it accepts `c` iff `c` is
unseen and `max(0, receiveCounter − 200) ≤ c ≤ receiveCounter + 200`. -/
theorem validateReceiveCounter_spec (s : PSKState) (c : Nat) (hc : c < 4294967296) :
    (s.receivedCounters = ∅ → (validateReceiveCounter s c).1 = true) ∧
    (s.receivedCounters.Nonempty →
      ((validateReceiveCounter s c).1 = true ↔
        c ∉ s.receivedCounters ∧
        max 0 ((s.receiveCounter : ℤ) - 200) ≤ (c : ℤ) ∧
        (c : ℤ) ≤ (s.receiveCounter : ℤ) + 200)) := by
  constructor
  · intro h
    simp [validateReceiveCounter, h]
  · intro hne
    by_cases hmem : c ∈ s.receivedCounters
    · simp [validateReceiveCounter, hmem]
    · have hcard : ¬ s.receivedCounters.card = 0 := by
        simpa [Finset.card_eq_zero] using hne.ne_empty
      simp only [validateReceiveCounter, if_neg hmem, if_neg hcard,
        PSK_PROTOCOL.COUNTER_WINDOW, Bool.and_eq_true, decide_eq_true_eq]
      constructor
      · rintro ⟨h1, h2⟩
        exact ⟨hmem, by omega, by omega⟩
      · rintro ⟨-, h1, h2⟩
        exact ⟨by omega, by omega⟩

/-- Witness for `validateReceiveCounter_spec`: bootstrap acceptance on a
fresh state, and window acceptance of counter 301 against high-water 500. -/
theorem validateReceiveCounter_spec_witness :
    (validateReceiveCounter ⟨[], 0, 0, ∅⟩ 7).1 = true ∧
    ((validateReceiveCounter ⟨[], 0, 500, {500}⟩ 301).1 = true ↔
      301 ∉ ({500} : Finset Nat) ∧
      max 0 ((500 : ℤ) - 200) ≤ (301 : ℤ) ∧ (301 : ℤ) ≤ (500 : ℤ) + 200) :=
  ⟨(validateReceiveCounter_spec ⟨[], 0, 0, ∅⟩ 7 (by norm_num)).1 rfl,
   (validateReceiveCounter_spec ⟨[], 0, 500, {500}⟩ 301 (by norm_num)).2
     ⟨500, Finset.mem_singleton_self 500⟩⟩

/-- **C9.** Recording a counter above the high-water mark raises the mark to
it, keeps it in the seen set, and leaves no seen entry below `c − 200`. -/
theorem recordReceivedCounter_prunes (s : PSKState) (c : Nat)
    (h : s.receiveCounter < c) :
    (recordReceivedCounter s c).receiveCounter = c ∧
    c ∈ (recordReceivedCounter s c).receivedCounters ∧
    ∀ x ∈ (recordReceivedCounter s c).receivedCounters, (c : ℤ) - 200 ≤ (x : ℤ) := by
  have hgt : c > s.receiveCounter := h
  have hrec : recordReceivedCounter s c =
      { initialPSK := s.initialPSK, sendCounter := s.sendCounter, receiveCounter := c,
        receivedCounters := (insert c s.receivedCounters).filter
          (fun x => ¬ x < c - PSK_PROTOCOL.COUNTER_WINDOW) } := by
    simp [recordReceivedCounter, pruneCounters, hgt]
  rw [hrec]
  refine ⟨rfl, ?_, ?_⟩
  · exact Finset.mem_filter.mpr ⟨Finset.mem_insert_self c _,
      by simp only [PSK_PROTOCOL.COUNTER_WINDOW]; omega⟩
  · intro x hx
    have := (Finset.mem_filter.mp hx).2
    simp only [PSK_PROTOCOL.COUNTER_WINDOW] at this
    omega

/-- Witness for `recordReceivedCounter_prunes`: recording 500 over
high-water 100 with seen set `{0, 100}`. -/
theorem recordReceivedCounter_prunes_witness :
    (recordReceivedCounter ⟨[], 0, 100, {0, 100}⟩ 500).receiveCounter = 500 ∧
    500 ∈ (recordReceivedCounter ⟨[], 0, 100, {0, 100}⟩ 500).receivedCounters ∧
    ∀ x ∈ (recordReceivedCounter ⟨[], 0, 100, {0, 100}⟩ 500).receivedCounters,
      (500 : ℤ) - 200 ≤ (x : ℤ) :=
  recordReceivedCounter_prunes ⟨[], 0, 100, {0, 100}⟩ 500 (by norm_num)

/-- **C10.** `validateReceiveCounter` leaves the state unchanged, and a
successful `advanceSendCounter` changes nothing but `sendCounter`. -/
theorem counter_ops_frame (s : PSKState) (c : Nat) :
    (validateReceiveCounter s c).2 = s ∧
    ∀ n s', advanceSendCounter s = .ok (n, s') →
      s'.initialPSK = s.initialPSK ∧ s'.receiveCounter = s.receiveCounter ∧
      s'.receivedCounters = s.receivedCounters := by
  constructor
  · unfold validateReceiveCounter
    split
    · rfl
    · split <;> rfl
  · intro n s' hok
    by_cases hb : s.sendCounter > 4294967295
    · simp [advanceSendCounter, hb] at hok
    · simp only [advanceSendCounter, if_neg hb, Except.ok.injEq, Prod.mk.injEq] at hok
      obtain ⟨-, h2⟩ := hok
      subst h2
      exact ⟨rfl, rfl, rfl⟩

/-- Witness for `counter_ops_frame` at a concrete state and counter. -/
theorem counter_ops_frame_witness :
    (validateReceiveCounter ⟨[1], 5, 2, {2}⟩ 3).2 = ⟨[1], 5, 2, {2}⟩ ∧
    ((⟨[1], 6, 2, {2}⟩ : PSKState).initialPSK = ([1] : List Nat) ∧
     (⟨[1], 6, 2, {2}⟩ : PSKState).receiveCounter = 2 ∧
     (⟨[1], 6, 2, {2}⟩ : PSKState).receivedCounters = ({2} : Finset Nat)) :=
  ⟨(counter_ops_frame ⟨[1], 5, 2, {2}⟩ 3).1,
   (counter_ops_frame ⟨[1], 5, 2, {2}⟩ 3).2 5 ⟨[1], 6, 2, {2}⟩ rfl⟩

/-- Writing `src` at offset 0 into a sufficiently long zero buffer. -/
theorem writeAt_seq (pre src : List Nat) (rest off : Nat) (hoff : pre.length = off) :
    writeAt (pre ++ List.replicate (src.length + rest) 0) off src =
      (pre ++ src) ++ List.replicate rest 0 := by
  subst hoff
  unfold writeAt
  rw [List.replicate_add, List.take_left]
  have hassoc : pre ++ (List.replicate src.length 0 ++ List.replicate rest 0) =
      (pre ++ List.replicate src.length 0) ++ List.replicate rest 0 :=
    (List.append_assoc _ _ _).symm
  rw [hassoc, List.drop_left' (by simp)]

/-- `writeAt_seq` at offset 0 (empty prefix). -/
theorem writeAt_zero (src : List Nat) (rest : Nat) :
    writeAt (List.replicate (src.length + rest) 0) 0 src =
      src ++ List.replicate rest 0 := by
  simpa using writeAt_seq [] src rest 0 rfl

/-- Closed form of `encodePSKEnvelope` for fields of the wire sizes. -/
theorem encodePSKEnvelope_eq (e : PSKEnvelope)
    (hs : e.senderPublicKey.length = 32) (heph : e.ephemeralPublicKey.length = 32)
    (hn : e.nonce.length = 12) (hesk : e.encryptedSenderKey.length = 48) :
    encodePSKEnvelope e =
      e.version % 256 :: e.protocolId % 256 ::
        (uint32BE e.counter ++ e.senderPublicKey ++ e.ephemeralPublicKey ++
          e.nonce ++ e.encryptedSenderKey ++ e.ciphertext) := by
  have hu : (uint32BE e.counter).length = 4 := rfl
  unfold encodePSKEnvelope
  simp only [PSK_PROTOCOL.HEADER_SIZE]
  rw [show 130 + e.ciphertext.length =
    [e.version % 256].length + (129 + e.ciphertext.length) from by simp; omega]
  rw [writeAt_zero]
  rw [show 129 + e.ciphertext.length =
    [e.protocolId % 256].length + (128 + e.ciphertext.length) from by simp; omega]
  rw [writeAt_seq [e.version % 256] [e.protocolId % 256]
    (128 + e.ciphertext.length) 1 rfl]
  rw [show 128 + e.ciphertext.length =
    (uint32BE e.counter).length + (124 + e.ciphertext.length) from by rw [hu]; omega]
  rw [writeAt_seq ([e.version % 256] ++ [e.protocolId % 256]) (uint32BE e.counter)
    (124 + e.ciphertext.length) 2 (by simp)]
  rw [show 124 + e.ciphertext.length =
    e.senderPublicKey.length + (92 + e.ciphertext.length) from by rw [hs]; omega]
  rw [writeAt_seq (([e.version % 256] ++ [e.protocolId % 256]) ++ uint32BE e.counter)
    e.senderPublicKey (92 + e.ciphertext.length) 6 (by simp [hu])]
  rw [show 92 + e.ciphertext.length =
    e.ephemeralPublicKey.length + (60 + e.ciphertext.length) from by rw [heph]; omega]
  rw [writeAt_seq ((([e.version % 256] ++ [e.protocolId % 256]) ++ uint32BE e.counter) ++
      e.senderPublicKey)
    e.ephemeralPublicKey (60 + e.ciphertext.length) 38 (by simp [hu, hs])]
  rw [show 60 + e.ciphertext.length =
    e.nonce.length + (48 + e.ciphertext.length) from by rw [hn]; omega]
  rw [writeAt_seq (((([e.version % 256] ++ [e.protocolId % 256]) ++ uint32BE e.counter) ++
      e.senderPublicKey) ++ e.ephemeralPublicKey)
    e.nonce (48 + e.ciphertext.length) 70 (by simp [hu, hs, heph])]
  rw [show 48 + e.ciphertext.length =
    e.encryptedSenderKey.length + e.ciphertext.length from by rw [hesk]]
  rw [writeAt_seq ((((([e.version % 256] ++ [e.protocolId % 256]) ++ uint32BE e.counter) ++
      e.senderPublicKey) ++ e.ephemeralPublicKey) ++ e.nonce)
    e.encryptedSenderKey e.ciphertext.length 82 (by simp [hu, hs, heph, hn])]
  rw [show e.ciphertext.length = e.ciphertext.length + 0 from rfl]
  rw [writeAt_seq (((((([e.version % 256] ++ [e.protocolId % 256]) ++ uint32BE e.counter) ++
      e.senderPublicKey) ++ e.ephemeralPublicKey) ++ e.nonce) ++ e.encryptedSenderKey)
    e.ciphertext 0 130 (by simp [hu, hs, heph, hn, hesk])]
  simp [List.append_assoc]

/-- Recover a 32-bit counter written big-endian at offset 2. -/
theorem getUint32BE_cons2 (a b c : Nat) (rest : List Nat) (hc : c < 4294967296) :
    getUint32BE (a :: b :: (uint32BE c ++ rest)) 2 = c := by
  simp only [getUint32BE, uint32BE, wordToBytes, w32, Nat.mod_eq_of_lt hc,
    List.cons_append, List.getD_cons_succ, List.getD_cons_zero]
  rw [Nat.shiftRight_eq_div_pow, Nat.shiftRight_eq_div_pow, Nat.shiftRight_eq_div_pow]
  omega

/-- A `slice` that covers exactly the middle of a three-way split. -/
theorem jsSlice_of_append (pre mid post : List Nat) (a b : Nat)
    (ha : pre.length = a) (hb : pre.length + mid.length = b) :
    jsSlice (pre ++ mid ++ post) a b = mid := by
  subst ha
  subst hb
  unfold jsSlice
  rw [show pre ++ mid ++ post = (pre ++ mid) ++ post from by simp [List.append_assoc]]
  rw [List.take_left' (by simp), List.drop_left]

/-- **C8.** Decoding an encoded well-formed PSK envelope returns the
envelope unchanged, field by field. -/
theorem decode_encode_psk_envelope (e : PSKEnvelope)
    (hv : e.version = 0x01) (hp : e.protocolId = 0x02) (hc : e.counter < 4294967296)
    (hs : e.senderPublicKey.length = 32) (heph : e.ephemeralPublicKey.length = 32)
    (hn : e.nonce.length = 12) (hesk : e.encryptedSenderKey.length = 48)
    (hct : 16 ≤ e.ciphertext.length) :
    decodePSKEnvelope (encodePSKEnvelope e) = .ok e := by
  obtain ⟨v, p, c, s, ep, nn, kk, ct⟩ := e
  simp only at hv hp hc hs heph hn hesk hct
  subst hv
  subst hp
  have hu : (uint32BE c).length = 4 := rfl
  rw [encodePSKEnvelope_eq ⟨1, 2, c, s, ep, nn, kk, ct⟩ hs heph hn hesk]
  simp only
  set data := 1 % 256 :: 2 % 256 :: (uint32BE c ++ s ++ ep ++ nn ++ kk ++ ct)
    with hdata
  have hL : data.length = 130 + ct.length := by
    rw [hdata]
    simp only [List.length_cons, List.length_append, hu, hs, heph, hn, hesk]
    omega
  have hno2 : ¬ data.length < 2 := by omega
  have hno146 : ¬ data.length <
      PSK_PROTOCOL.HEADER_SIZE + PSK_PROTOCOL.TAG_SIZE := by
    simp only [PSK_PROTOCOL.HEADER_SIZE, PSK_PROTOCOL.TAG_SIZE]
    omega
  have gcounter : getUint32BE data 2 = c := by
    rw [hdata]
    exact getUint32BE_cons2 _ _ _ _ hc
  have gsender : jsSlice data 6 38 = s := by
    rw [hdata, show 1 % 256 :: 2 % 256 :: (uint32BE c ++ s ++ ep ++ nn ++ kk ++ ct) =
      (1 % 256 :: 2 % 256 :: uint32BE c) ++ s ++ (ep ++ nn ++ kk ++ ct) from by
        simp [List.cons_append, List.append_assoc]]
    exact jsSlice_of_append _ _ _ 6 38 (by simp [hu]) (by simp [hu, hs])
  have geph : jsSlice data 38 70 = ep := by
    rw [hdata, show 1 % 256 :: 2 % 256 :: (uint32BE c ++ s ++ ep ++ nn ++ kk ++ ct) =
      (1 % 256 :: 2 % 256 :: (uint32BE c ++ s)) ++ ep ++ (nn ++ kk ++ ct) from by
        simp [List.cons_append, List.append_assoc]]
    exact jsSlice_of_append _ _ _ 38 70 (by simp [hu, hs]) (by simp [hu, hs, heph])
  have gnonce : jsSlice data 70 82 = nn := by
    rw [hdata, show 1 % 256 :: 2 % 256 :: (uint32BE c ++ s ++ ep ++ nn ++ kk ++ ct) =
      (1 % 256 :: 2 % 256 :: (uint32BE c ++ s ++ ep)) ++ nn ++ (kk ++ ct) from by
        simp [List.cons_append, List.append_assoc]]
    exact jsSlice_of_append _ _ _ 70 82 (by simp [hu, hs, heph])
      (by simp [hu, hs, heph, hn])
  have gesk : jsSlice data 82 130 = kk := by
    rw [hdata, show 1 % 256 :: 2 % 256 :: (uint32BE c ++ s ++ ep ++ nn ++ kk ++ ct) =
      (1 % 256 :: 2 % 256 :: (uint32BE c ++ s ++ ep ++ nn)) ++ kk ++ ct from by
        simp [List.cons_append, List.append_assoc]]
    exact jsSlice_of_append _ _ _ 82 130 (by simp [hu, hs, heph, hn])
      (by simp [hu, hs, heph, hn, hesk])
  have gct : data.drop 130 = ct := by
    rw [hdata, show 1 % 256 :: 2 % 256 :: (uint32BE c ++ s ++ ep ++ nn ++ kk ++ ct) =
      (1 % 256 :: 2 % 256 :: (uint32BE c ++ s ++ ep ++ nn ++ kk)) ++ ct from by
        simp [List.cons_append, List.append_assoc]]
    exact List.drop_left' (by simp [hu, hs, heph, hn, hesk])
  simp [decodePSKEnvelope, hno2, hno146, gcounter, gsender, geph,
    gnonce, gesk, gct, PSK_PROTOCOL.VERSION, PSK_PROTOCOL.PROTOCOL_ID]
  have g0 : data[0]?.getD 0 = 1 := by rw [hdata]; rfl
  have g1 : data[1]?.getD 0 = 2 := by rw [hdata]; rfl
  simp [g0, g1]

/-- Witness for `decode_encode_psk_envelope` at a concrete envelope. -/
theorem decode_encode_psk_envelope_witness :
    decodePSKEnvelope (encodePSKEnvelope
      ⟨1, 2, 5, List.replicate 32 7, List.replicate 32 8, List.replicate 12 9,
       List.replicate 48 3, List.replicate 16 4⟩) =
      .ok ⟨1, 2, 5, List.replicate 32 7, List.replicate 32 8, List.replicate 12 9,
       List.replicate 48 3, List.replicate 16 4⟩ :=
  decode_encode_psk_envelope _ rfl rfl (by norm_num) (by simp) (by simp) (by simp)
    (by simp) (by simp)

set_option maxRecDepth 100000 in
/-- **C4, counterexample.** A 1031-byte input (well over the 1024-byte
protocol maximum) with a valid header is *not* rejected: it decodes
successfully. -/
theorem decodePSKEnvelope_accepts_1031_bytes :
    decodePSKEnvelope ([1, 2] ++ List.replicate 1029 0) =
      .ok ⟨1, 2, 0, List.replicate 32 0, List.replicate 32 0, List.replicate 12 0,
           List.replicate 48 0, List.replicate 901 0⟩ ∧
    1024 < ([1, 2] ++ List.replicate 1029 0 : List Nat).length := by
  constructor
  · rfl
  · simp

/-- **C4, amended.** `decodePSKEnvelope` enforces no upper size bound: an
input longer than 1024 bytes decodes successfully exactly when its first
two bytes are the version `0x01` and protocol id `0x02`. -/
theorem decodePSKEnvelope_ignores_upper_bound (data : List Nat)
    (h : 1024 < data.length) :
    (∃ env, decodePSKEnvelope data = .ok env) ↔
      data.getD 0 0 = 0x01 ∧ data.getD 1 0 = 0x02 := by
  have hno2 : ¬ data.length < 2 := by omega
  have hno146 : ¬ data.length <
      PSK_PROTOCOL.HEADER_SIZE + PSK_PROTOCOL.TAG_SIZE := by
    simp only [PSK_PROTOCOL.HEADER_SIZE, PSK_PROTOCOL.TAG_SIZE]
    omega
  simp only [List.getD_eq_getElem?_getD]
  by_cases c0 : data[0]?.getD 0 = 1
  · by_cases c1 : data[1]?.getD 0 = 2
    · simp [decodePSKEnvelope, hno2, hno146, c0, c1,
        PSK_PROTOCOL.VERSION, PSK_PROTOCOL.PROTOCOL_ID]
    · simp [decodePSKEnvelope, hno2, hno146, c0, c1,
        PSK_PROTOCOL.VERSION, PSK_PROTOCOL.PROTOCOL_ID]
  · simp [decodePSKEnvelope, hno2, hno146, c0,
      PSK_PROTOCOL.VERSION, PSK_PROTOCOL.PROTOCOL_ID]

/-- Witness for `decodePSKEnvelope_ignores_upper_bound`: a long input with a
wrong version byte fails to decode. -/
theorem decodePSKEnvelope_ignores_upper_bound_witness :
    1024 < ([3] ++ List.replicate 1030 0 : List Nat).length ∧
    ((∃ env, decodePSKEnvelope ([3] ++ List.replicate 1030 0) = .ok env) ↔
      ([3] ++ List.replicate 1030 0 : List Nat).getD 0 0 = 0x01 ∧
      ([3] ++ List.replicate 1030 0 : List Nat).getD 1 0 = 0x02) :=
  ⟨by rw [List.length_append, List.length_replicate]; norm_num,
   decodePSKEnvelope_ignores_upper_bound _
     (by rw [List.length_append, List.length_replicate]; norm_num)⟩

/-- Little-endian decode inverts the `n`-byte little-endian encode below
`256^n`. -/
theorem bytesToNatLE_natToBytesLE : ∀ (n x : Nat), x < 256 ^ n →
    bytesToNatLE (natToBytesLE n x) = x := by
  intro n
  induction n with
  | zero =>
      intro x hx
      interval_cases x
      rfl
  | succ n ih =>
      intro x hx
      have hdiv : x / 256 < 256 ^ n := by
        apply Nat.div_lt_of_lt_mul
        rw [Nat.pow_succ] at hx
        omega
      simp only [natToBytesLE, bytesToNatLE, ih (x / 256) hdiv]
      omega

/-- The field prime is below `256³²`. -/
theorem curveP_lt : curveP < 256 ^ 32 := by
  have h : (256 : Nat) ^ 32 = 2 ^ 256 := by norm_num
  rw [h]
  simp only [curveP]
  have h1 : (2 : Nat) ^ 255 < 2 ^ 256 :=
    Nat.pow_lt_pow_right (by norm_num) (by norm_num)
  omega

/-- Diffie-Hellman agreement in the modelled group: combining one secret
with the other's public key is symmetric. -/
theorem dh_comm (a b : List Nat) :
    x25519GetSharedSecret a (x25519GetPublicKey b) =
      x25519GetSharedSecret b (x25519GetPublicKey a) := by
  unfold x25519GetSharedSecret x25519GetPublicKey
  have hb : curveG ^ bytesToNatLE b % curveP < 256 ^ 32 :=
    lt_of_lt_of_le (Nat.mod_lt _ (by norm_num [curveP])) (le_of_lt curveP_lt)
  have ha : curveG ^ bytesToNatLE a % curveP < 256 ^ 32 :=
    lt_of_lt_of_le (Nat.mod_lt _ (by norm_num [curveP])) (le_of_lt curveP_lt)
  rw [bytesToNatLE_natToBytesLE 32 _ hb, bytesToNatLE_natToBytesLE 32 _ ha]
  congr 1
  rw [← Nat.pow_mod, ← Nat.pow_mod, ← Nat.pow_mul, ← Nat.pow_mul, Nat.mul_comm]

/-- `shaCompress` always returns eight words. -/
theorem shaCompress_length (hv block : List Nat) :
    (shaCompress hv block).length = 8 := rfl

/-- Folding compressions preserves the eight-word shape. -/
theorem foldl_shaCompress_length : ∀ (l : List (List Nat)) (hv : List Nat),
    hv.length = 8 → (l.foldl shaCompress hv).length = 8 := by
  intro l
  induction l with
  | nil => intro hv h; simpa using h
  | cons b t ih => intro hv _; exact ih (shaCompress hv b) (shaCompress_length hv b)

/-- Serialising words gives four bytes per word. -/
theorem flatMap_wordToBytes_length : ∀ (l : List Nat),
    (l.flatMap wordToBytes).length = 4 * l.length := by
  intro l
  induction l with
  | nil => rfl
  | cons a t ih =>
      simp [wordToBytes, ih]
      omega

/-- SHA-256 digests are 32 bytes. -/
theorem sha256_length (m : List Nat) : (sha256 m).length = 32 := by
  unfold sha256
  rw [flatMap_wordToBytes_length, foldl_shaCompress_length _ shaH0 rfl]

/-- Keystream blocks have the stated length. -/
theorem aeadBlocks_length (key nonce : List Nat) : ∀ (n i : Nat),
    (aeadBlocks key nonce n i).length = 32 * n := by
  intro n
  induction n with
  | zero => intro i; rfl
  | succ n ih =>
      intro i
      simp [aeadBlocks, sha256_length, ih]
      omega

/-- The keystream has exactly the requested length. -/
theorem aeadKeystream_length (key nonce : List Nat) (len : Nat) :
    (aeadKeystream key nonce len).length = len := by
  simp only [aeadKeystream, List.length_take, aeadBlocks_length]
  omega

/-- XOR-ing the same keystream twice recovers the message. -/
theorem zipXor_cancel : ∀ (m ks : List Nat), m.length ≤ ks.length →
    zipXor (zipXor m ks) ks = m := by
  intro m
  induction m with
  | nil => intro ks _; rfl
  | cons a t ih =>
      intro ks hks
      cases ks with
      | nil => simp at hks
      | cons k kt =>
          simp only [List.length_cons] at hks
          have iht := ih kt (by omega)
          simp only [zipXor, List.zipWith_cons_cons] at iht ⊢
          rw [Nat.xor_assoc, Nat.xor_self, Nat.xor_zero, iht]

/-- The AEAD model round-trips: decrypting an encryption under the same key
and nonce authenticates and returns the message. -/
theorem chacha_roundtrip (key nonce msg : List Nat) :
    chachaDecrypt key nonce (chachaEncrypt key nonce msg) = some msg := by
  unfold chachaEncrypt chachaDecrypt
  have hbl : (zipXor msg (aeadKeystream key nonce msg.length)).length =
      msg.length := by
    simp [zipXor, aeadKeystream_length]
  have hlen : (zipXor msg (aeadKeystream key nonce msg.length) ++
      aeadTag key nonce (zipXor msg (aeadKeystream key nonce msg.length))).length =
      msg.length + 16 := by
    simp [hbl, aeadTag, sha256_length]
  rw [hlen]
  rw [if_neg (by omega)]
  have hsub : msg.length + 16 - 16 = msg.length := by omega
  rw [hsub]
  rw [List.take_left' hbl, List.drop_left' hbl, if_pos rfl, hbl]
  rw [zipXor_cancel msg _ (by rw [aeadKeystream_length])]

/-- Payloads that do not begin with the byte of the character left brace are
returned verbatim by `parsePSKPayload`. -/
theorem parse_plain (msg : List Nat) (c : Nat) (h : msg.head? ≠ some 123) :
    parsePSKPayload msg c =
      some { text := msg, counter := c, replyToId := none,
             replyToPreview := none } := by
  cases msg with
  | nil => rfl
  | cons a t =>
      have ha : a ≠ 123 := by
        intro h123
        exact h (by simp [h123])
      unfold parsePSKPayload
      split
      · rename_i heq
        exact absurd (congrArg List.head? heq) (by simp [ha])
      · rfl

/-- **C1, amended.** For every message (as UTF-8 bytes) of at most 878 bytes
that does not start with the character left brace, every pair of key pairs,
every PSK and every counter below `2³²`, PSK encryption followed by
decryption with the recipient's keys — and likewise with the sender's keys
(self-recovery) — succeeds and returns the original text at the envelope's
counter. -/
theorem psk_encrypt_decrypt_roundtrip
    (msg senderPriv recipPriv initialPSK ephPriv nonce : List Nat) (c : Nat)
    (hlen : msg.length ≤ 878) (hc : c < 4294967296)
    (hbrace : msg.head? ≠ some 123) :
    ((pskEncryptMessage msg (x25519GetPublicKey senderPriv)
        (x25519GetPublicKey recipPriv) initialPSK c ephPriv nonce).map
      (fun env => pskDecryptMessage env recipPriv (x25519GetPublicKey recipPriv)
        initialPSK) =
      .ok (some (some { text := msg, counter := c, replyToId := none,
                        replyToPreview := none }))) ∧
    ((pskEncryptMessage msg (x25519GetPublicKey senderPriv)
        (x25519GetPublicKey recipPriv) initialPSK c ephPriv nonce).map
      (fun env => pskDecryptMessage env senderPriv (x25519GetPublicKey senderPriv)
        initialPSK) =
      .ok (some (some { text := msg, counter := c, replyToId := none,
                        replyToPreview := none }))) := by
  have hnot : ¬ msg.length > PSK_PROTOCOL.MAX_PAYLOAD_SIZE := by
    simp only [PSK_PROTOCOL.MAX_PAYLOAD_SIZE]
    omega
  constructor
  · by_cases hpq : x25519GetPublicKey recipPriv = x25519GetPublicKey senderPriv
    · simp [pskEncryptMessage, hnot, Except.map, pskDecryptMessage,
        pskDecryptAsSender, uint8ArrayEquals, hpq, dh_comm recipPriv ephPriv,
        chacha_roundtrip, parse_plain msg c hbrace]
    · simp [pskEncryptMessage, hnot, Except.map, pskDecryptMessage,
        pskDecryptAsRecipient, uint8ArrayEquals, hpq, dh_comm recipPriv ephPriv,
        chacha_roundtrip, parse_plain msg c hbrace]
  · simp [pskEncryptMessage, hnot, Except.map, pskDecryptMessage,
      pskDecryptAsSender, uint8ArrayEquals, dh_comm senderPriv ephPriv,
      chacha_roundtrip, parse_plain msg c hbrace]

/-- Witness for `psk_encrypt_decrypt_roundtrip` at concrete keys, PSK,
counter 0 and the message `"Hello PSK!"`. -/
theorem psk_encrypt_decrypt_roundtrip_witness :
    ((pskEncryptMessage (strBytes "Hello PSK!") (x25519GetPublicKey [2])
        (x25519GetPublicKey [3]) (List.replicate 32 170) 0 [5]
        (List.replicate 12 0)).map
      (fun env => pskDecryptMessage env [3] (x25519GetPublicKey [3])
        (List.replicate 32 170)) =
      .ok (some (some { text := strBytes "Hello PSK!", counter := 0,
                        replyToId := none, replyToPreview := none }))) ∧
    ((pskEncryptMessage (strBytes "Hello PSK!") (x25519GetPublicKey [2])
        (x25519GetPublicKey [3]) (List.replicate 32 170) 0 [5]
        (List.replicate 12 0)).map
      (fun env => pskDecryptMessage env [2] (x25519GetPublicKey [2])
        (List.replicate 32 170)) =
      .ok (some (some { text := strBytes "Hello PSK!", counter := 0,
                        replyToId := none, replyToPreview := none }))) :=
  psk_encrypt_decrypt_roundtrip (strBytes "Hello PSK!") [2] [3]
    (List.replicate 32 170) [5] (List.replicate 12 0) 0 (by decide) (by norm_num)
    (by decide)

set_option maxRecDepth 1000000 in
/-- **C1, counterexample.** The 22-byte text consisting of a JSON
key-publish object is within the payload bound, yet decrypting its
encryption with the recipient's keys returns `null` (the key-publish
filter), not a result carrying the original text. -/
theorem psk_roundtrip_counterexample :
    (pskEncryptMessage (strBytes "\x7b\"type\":\"key-publish\"\x7d")
        (x25519GetPublicKey [2]) (x25519GetPublicKey [3]) (List.replicate 32 170) 0
        [5] (List.replicate 12 0)).map
      (fun env => pskDecryptMessage env [3] (x25519GetPublicKey [3])
        (List.replicate 32 170)) = .ok (some none) := by
  rfl

/-- Scalar values are below `0x110000`. -/
theorem char_toNat_lt (c : Char) : c.toNat < 1114112 := by
  have h := c.valid
  simp only [Char.toNat]
  rcases h with h | h <;> omega

/-- UTF-8 encoding emits bytes. -/
theorem utf8EncodeNat_bytes_lt (n : Nat) (h : n < 1114112) :
    ∀ b ∈ utf8EncodeNat n, b < 256 := by
  unfold utf8EncodeNat
  split_ifs with h1 h2 h3 <;> simp <;> omega

/-- UTF-8 encoding of a character is nonempty. -/
theorem utf8EncodeNat_ne_nil (n : Nat) : utf8EncodeNat n ≠ [] := by
  unfold utf8EncodeNat
  split_ifs <;> simp

/-- A string is at most as long as its UTF-8 encoding. -/
theorem length_le_utf8Encode (s : List Char) : s.length ≤ (utf8Encode s).length := by
  induction s with
  | nil => simp [utf8Encode]
  | cons c t ih =>
      have h1 : (utf8EncodeNat c.toNat).length ≠ 0 :=
        fun h => utf8EncodeNat_ne_nil c.toNat (List.length_eq_zero.mp h)
      simp only [utf8Encode, List.flatMap_cons, List.length_append,
        List.length_cons]
      simp only [utf8Encode] at ih
      omega

/-- The fuelled lossy decoder on the empty byte string. -/
theorem utf8DecodeLossyAux_nil (fuel : Nat) : utf8DecodeLossyAux fuel [] = [] := by
  cases fuel <;> rfl

/-- The lossy decoder takes one character off the front of an encoding. -/
theorem utf8DecodeLossyAux_encode_cons (c : Char) (fuel : Nat) (rest : List Nat) :
    utf8DecodeLossyAux (fuel + 1) (utf8EncodeNat c.toNat ++ rest) =
      c :: utf8DecodeLossyAux fuel rest := by
  have hlt := char_toNat_lt c
  unfold utf8EncodeNat
  by_cases h1 : c.toNat < 0x80
  · simp only [if_pos h1, List.cons_append, List.nil_append]
    simp only [utf8DecodeLossyAux, if_pos h1, Char.ofNat_toNat]
  · by_cases h2 : c.toNat < 0x800
    · have hb1a : ¬ (0xC0 + c.toNat / 64 < 0x80) := by omega
      have hb1b : 0xC2 ≤ 0xC0 + c.toNat / 64 ∧ 0xC0 + c.toNat / 64 < 0xE0 := by
        omega
      have hb2 : 0x80 ≤ 0x80 + c.toNat % 64 ∧ 0x80 + c.toNat % 64 < 0xC0 := by
        omega
      simp only [if_neg h1, if_pos h2, List.cons_append, List.nil_append]
      simp only [utf8DecodeLossyAux, if_neg hb1a, if_pos hb1b, if_pos hb2]
      rw [show (0xC0 + c.toNat / 64 - 0xC0) * 64 + (0x80 + c.toNat % 64 - 0x80) =
        c.toNat from by omega, Char.ofNat_toNat]
    · by_cases h3 : c.toNat < 0x10000
      · have hb1a : ¬ (0xE0 + c.toNat / 4096 < 0x80) := by omega
        have hb1b : ¬ (0xC2 ≤ 0xE0 + c.toNat / 4096 ∧
            0xE0 + c.toNat / 4096 < 0xE0) := by omega
        have hb1c : 0xE0 ≤ 0xE0 + c.toNat / 4096 ∧
            0xE0 + c.toNat / 4096 < 0xF0 := by omega
        have hb23 : (0x80 ≤ 0x80 + c.toNat / 64 % 64 ∧
            0x80 + c.toNat / 64 % 64 < 0xC0) ∧
            (0x80 ≤ 0x80 + c.toNat % 64 ∧ 0x80 + c.toNat % 64 < 0xC0) := by omega
        simp only [if_neg h1, if_neg h2, if_pos h3, List.cons_append,
          List.nil_append]
        simp only [utf8DecodeLossyAux, if_neg hb1a, if_neg hb1b, if_pos hb1c,
          if_pos hb23]
        rw [show (0xE0 + c.toNat / 4096 - 0xE0) * 4096 +
          (0x80 + c.toNat / 64 % 64 - 0x80) * 64 + (0x80 + c.toNat % 64 - 0x80) =
          c.toNat from by omega, Char.ofNat_toNat]
      · have hb1a : ¬ (0xF0 + c.toNat / 262144 < 0x80) := by omega
        have hb1b : ¬ (0xC2 ≤ 0xF0 + c.toNat / 262144 ∧
            0xF0 + c.toNat / 262144 < 0xE0) := by omega
        have hb1c : ¬ (0xE0 ≤ 0xF0 + c.toNat / 262144 ∧
            0xF0 + c.toNat / 262144 < 0xF0) := by omega
        have hb1d : 0xF0 ≤ 0xF0 + c.toNat / 262144 ∧
            0xF0 + c.toNat / 262144 < 0xF5 := by omega
        have hb234 : (0x80 ≤ 0x80 + c.toNat / 4096 % 64 ∧
            0x80 + c.toNat / 4096 % 64 < 0xC0) ∧
            (0x80 ≤ 0x80 + c.toNat / 64 % 64 ∧ 0x80 + c.toNat / 64 % 64 < 0xC0) ∧
            (0x80 ≤ 0x80 + c.toNat % 64 ∧ 0x80 + c.toNat % 64 < 0xC0) := by omega
        simp only [if_neg h1, if_neg h2, if_neg h3, List.cons_append,
          List.nil_append]
        simp only [utf8DecodeLossyAux, if_neg hb1a, if_neg hb1b, if_neg hb1c,
          if_pos hb1d, if_pos hb234]
        rw [show (0xF0 + c.toNat / 262144 - 0xF0) * 262144 +
          (0x80 + c.toNat / 4096 % 64 - 0x80) * 4096 +
          (0x80 + c.toNat / 64 % 64 - 0x80) * 64 + (0x80 + c.toNat % 64 - 0x80) =
          c.toNat from by omega, Char.ofNat_toNat]

/-- The lossy decoder inverts the encoder, for any sufficient extra fuel. -/
theorem utf8DecodeLossyAux_encode (s : List Char) : ∀ (fuel : Nat) (rest : List Nat),
    utf8DecodeLossyAux (fuel + s.length) (utf8Encode s ++ rest) =
      s ++ utf8DecodeLossyAux fuel rest := by
  induction s with
  | nil => intro fuel rest; simp [utf8Encode]
  | cons c t ih =>
      intro fuel rest
      have hsplit : utf8Encode (c :: t) ++ rest =
          utf8EncodeNat c.toNat ++ (utf8Encode t ++ rest) := by
        simp [utf8Encode]
      rw [hsplit, show fuel + (c :: t).length = (fuel + t.length) + 1 from by
        simp [List.length_cons]; omega]
      rw [utf8DecodeLossyAux_encode_cons c (fuel + t.length) (utf8Encode t ++ rest),
        ih fuel rest]
      simp

/-- UTF-8 decode-encode round trip. -/
theorem utf8DecodeLossy_encode (s : List Char) :
    utf8DecodeLossy (utf8Encode s) = s := by
  have h := length_le_utf8Encode s
  have key := utf8DecodeLossyAux_encode s ((utf8Encode s).length - s.length) []
  rw [List.append_nil, utf8DecodeLossyAux_nil, List.append_nil] at key
  unfold utf8DecodeLossy
  rw [show (utf8Encode s).length =
    (utf8Encode s).length - s.length + s.length from by omega]
  exact key

/-- The fuelled percent decoder on the empty string. -/
theorem percentDecodeBytesAux_nil (fuel : Nat) :
    percentDecodeBytesAux fuel [] = [] := by
  cases fuel <;> rfl

/-- The fuelled percent decoder is independent of the fuel, given enough. -/
theorem percentDecodeBytesAux_fuel : ∀ (fuel : Nat) (l : List Char) (fuel' : Nat),
    l.length ≤ fuel → l.length ≤ fuel' →
    percentDecodeBytesAux fuel l = percentDecodeBytesAux fuel' l := by
  intro fuel
  induction fuel with
  | zero =>
      intro l fuel' h1 _
      have hl : l = [] := List.length_eq_zero.mp (by omega)
      subst hl
      rw [percentDecodeBytesAux_nil, percentDecodeBytesAux_nil]
  | succ f ih =>
      intro l fuel' h1 h2
      cases l with
      | nil => rw [percentDecodeBytesAux_nil, percentDecodeBytesAux_nil]
      | cons c rest =>
          cases fuel' with
          | zero => simp at h2
          | succ f' =>
              simp only [List.length_cons] at h1 h2
              simp only [percentDecodeBytesAux]
              by_cases hc : c = '%'
              · simp only [if_pos hc]
                cases rest with
                | nil =>
                    rw [percentDecodeBytesAux_nil, percentDecodeBytesAux_nil]
                | cons d rest1 =>
                    cases rest1 with
                    | nil =>
                        rw [ih [d] f' (by simp at h1 ⊢; omega)
                          (by simp at h2 ⊢; omega)]
                    | cons e rest2 =>
                        by_cases hh : (isHexDigit d && isHexDigit e) = true
                        · simp only [hh, if_true]
                          rw [ih rest2 f' (by simp at h1 ⊢; omega)
                            (by simp at h2 ⊢; omega)]
                        · simp only [hh, if_false]
                          rw [ih (d :: e :: rest2) f' (by simp at h1 ⊢; omega)
                            (by simp at h2 ⊢; omega)]
                          simp
              · simp only [if_neg hc]
                rw [ih rest f' (by omega) (by omega)]

/-- `percentDecodeBytes` on a plain character. -/
theorem percentDecodeBytes_cons (c : Char) (rest : List Char) (h : c ≠ '%') :
    percentDecodeBytes (c :: rest) =
      utf8EncodeNat c.toNat ++ percentDecodeBytes rest := by
  show percentDecodeBytesAux (rest.length + 1) (c :: rest) = _
  simp only [percentDecodeBytesAux, if_neg h]
  rfl

/-- `percentDecodeBytes` on a valid escape. -/
theorem percentDecodeBytes_pct (h1 h2 : Char) (rest : List Char)
    (hh : (isHexDigit h1 && isHexDigit h2) = true) :
    percentDecodeBytes ('%' :: h1 :: h2 :: rest) =
      (hexVal h1 * 16 + hexVal h2) :: percentDecodeBytes rest := by
  show percentDecodeBytesAux (rest.length + 3) ('%' :: h1 :: h2 :: rest) = _
  simp only [percentDecodeBytesAux, if_pos rfl, hh, if_true]
  rw [percentDecodeBytesAux_fuel (rest.length + 2) rest rest.length (by omega)
    le_rfl]
  rfl

/-- Hex digits produced by `hexUpper` are recognised and invert. -/
theorem hexUpper_spec : ∀ x < 16, isHexDigit (hexUpper x) = true ∧
    hexVal (hexUpper x) = x := by decide

/-- Percent escapes of a byte string decode back to it. -/
theorem percentDecodeBytes_encBytes (bl : List Nat) (tail : List Char)
    (h : ∀ b ∈ bl, b < 256) :
    percentDecodeBytes (bl.flatMap percentEncodeByte ++ tail) =
      bl ++ percentDecodeBytes tail := by
  induction bl with
  | nil => simp
  | cons b bt ih =>
      have hb : b < 256 := h b (by simp)
      have hd1 := hexUpper_spec (b / 16) (by omega)
      have hd2 := hexUpper_spec (b % 16) (by omega)
      have hshape : (b :: bt).flatMap percentEncodeByte ++ tail =
          '%' :: hexUpper (b / 16) :: hexUpper (b % 16) ::
            (bt.flatMap percentEncodeByte ++ tail) := by
        simp [percentEncodeByte]
      rw [hshape, percentDecodeBytes_pct _ _ _ (by rw [hd1.1, hd2.1]; rfl)]
      rw [hd1.2, hd2.2, show b / 16 * 16 + b % 16 = b from by omega]
      rw [ih (fun x hx => h x (by simp [hx]))]
      rfl

/-- Unreserved characters are not special. -/
theorem unreserved_ne (c : Char) (h : isUriUnreserved c = true) :
    c ≠ '%' ∧ c ≠ '+' ∧ c ≠ '&' ∧ c ≠ '=' := by
  refine ⟨?_, ?_, ?_, ?_⟩ <;> intro heq <;> rw [heq] at h <;>
    exact absurd h (by decide)

/-- Percent-decoding inverts `encodeURIComponent` at the byte level. -/
theorem percentDecodeBytes_encodeURIComponent (s : List Char) :
    percentDecodeBytes (encodeURIComponent s) = utf8Encode s := by
  induction s with
  | nil => decide
  | cons c t ih =>
      by_cases hu : isUriUnreserved c
      · have hc := (unreserved_ne c hu).1
        have hshape : encodeURIComponent (c :: t) = c :: encodeURIComponent t := by
          simp [encodeURIComponent, hu]
        rw [hshape, percentDecodeBytes_cons c _ hc, ih]
        simp [utf8Encode]
      · have hshape : encodeURIComponent (c :: t) =
            (utf8EncodeNat c.toNat).flatMap percentEncodeByte ++
              encodeURIComponent t := by
          simp [encodeURIComponent, hu]
        rw [hshape, percentDecodeBytes_encBytes _ _
          (utf8EncodeNat_bytes_lt c.toNat (char_toNat_lt c)), ih]
        simp [utf8Encode]

/-- `hexUpper` digits are not special characters. -/
theorem hexUpper_ne : ∀ x < 16, hexUpper x ≠ '+' ∧ hexUpper x ≠ '&' ∧
    hexUpper x ≠ '=' := by decide

/-- `encodeURIComponent` output contains no `+`, `&` or `=`. -/
theorem encodeURIComponent_chars (s : List Char) :
    ∀ ch ∈ encodeURIComponent s, ch ≠ '+' ∧ ch ≠ '&' ∧ ch ≠ '=' := by
  intro ch hch
  obtain ⟨c, hc, hmem⟩ := List.mem_flatMap.mp hch
  by_cases hu : isUriUnreserved c
  · rw [if_pos hu] at hmem
    simp only [List.mem_singleton] at hmem
    subst hmem
    exact ⟨(unreserved_ne ch hu).2.1, (unreserved_ne ch hu).2.2.1,
      (unreserved_ne ch hu).2.2.2⟩
  · rw [if_neg hu] at hmem
    obtain ⟨b, hb, hmem2⟩ := List.mem_flatMap.mp hmem
    have hb256 : b < 256 := utf8EncodeNat_bytes_lt c.toNat (char_toNat_lt c) b hb
    simp only [percentEncodeByte, List.mem_cons, List.not_mem_nil, or_false] at hmem2
    rcases hmem2 with h | h | h
    · subst h
      exact ⟨by decide, by decide, by decide⟩
    · subst h
      exact hexUpper_ne (b / 16) (by omega)
    · subst h
      exact hexUpper_ne (b % 16) (by omega)

/-- The identity behaviour of `plusToSpace` away from `+`. -/
theorem plusToSpace_id (l : List Char) (h : ∀ ch ∈ l, ch ≠ '+') :
    plusToSpace l = l := by
  induction l with
  | nil => rfl
  | cons c t ih =>
      simp only [plusToSpace, List.map_cons, if_neg (h c (by simp))]
      simp only [plusToSpace] at ih
      rw [ih (fun ch hch => h ch (by simp [hch]))]

/-- Percent decoding away from `%` is UTF-8 encoding. -/
theorem percentDecodeBytes_no_pct (l : List Char) (h : ∀ ch ∈ l, ch ≠ '%') :
    percentDecodeBytes l = utf8Encode l := by
  induction l with
  | nil => decide
  | cons c t ih =>
      rw [percentDecodeBytes_cons c t (h c (by simp)),
        ih (fun ch hch => h ch (by simp [hch]))]
      simp [utf8Encode]

/-- `URLSearchParams` decoding is the identity on strings without `%` or
`+`. -/
theorem wwwFormDecode_plain (l : List Char) (h : ∀ ch ∈ l, ch ≠ '%' ∧ ch ≠ '+') :
    wwwFormDecode l = l := by
  unfold wwwFormDecode
  rw [plusToSpace_id l (fun ch hc => (h ch hc).2),
    percentDecodeBytes_no_pct l (fun ch hc => (h ch hc).1),
    utf8DecodeLossy_encode]

/-- `URLSearchParams` decoding inverts `encodeURIComponent`. -/
theorem wwwFormDecode_encodeURIComponent (s : List Char) :
    wwwFormDecode (encodeURIComponent s) = s := by
  unfold wwwFormDecode
  rw [plusToSpace_id _ (fun ch hc => (encodeURIComponent_chars s ch hc).1),
    percentDecodeBytes_encodeURIComponent, utf8DecodeLossy_encode]

/-- The strict `decodeURIComponent` is the identity on strings without `%`. -/
theorem decURIAux_no_pct : ∀ (l : List Char) (fuel : Nat), l.length ≤ fuel →
    (∀ ch ∈ l, ch ≠ '%') → decURIAux fuel l = some l := by
  intro l
  induction l with
  | nil => intro fuel _ _; cases fuel <;> rfl
  | cons c t ih =>
      intro fuel hfuel h
      cases fuel with
      | zero => simp at hfuel
      | succ f =>
          simp only [decURIAux, if_neg (h c (by simp))]
          rw [ih f (by simp at hfuel; omega) (fun ch hch => h ch (by simp [hch]))]
          rfl

/-- `decodeURIComponent` is the identity on strings without `%`. -/
theorem decodeURIComponentM_no_pct (l : List Char) (h : ∀ ch ∈ l, ch ≠ '%') :
    decodeURIComponentM l = some l :=
  decURIAux_no_pct l l.length le_rfl h

/-- Splitting never yields the empty list of pieces. -/
theorem splitOnAmp_ne_nil : ∀ (l : List Char), splitOnAmp l ≠ [] := by
  intro l
  cases l with
  | nil => simp [splitOnAmp]
  | cons c rest =>
      simp only [splitOnAmp]
      split <;> split <;> simp

/-- Splitting a separator-free string. -/
theorem splitOnAmp_no_amp (a : List Char) (h : ∀ ch ∈ a, ch ≠ '&') :
    splitOnAmp a = [a] := by
  induction a with
  | nil => rfl
  | cons c rest ih =>
      have hr := ih (fun ch hch => h ch (by simp [hch]))
      simp only [splitOnAmp, hr]
      rw [if_neg (h c (by simp))]

/-- Splitting peels one separator-free piece off the front. -/
theorem splitOnAmp_append (a b : List Char) (h : ∀ ch ∈ a, ch ≠ '&') :
    splitOnAmp (a ++ '&' :: b) = a :: splitOnAmp b := by
  induction a with
  | nil =>
      simp only [List.nil_append, splitOnAmp]
      obtain ⟨h0, t0, hsplit⟩ : ∃ h0 t0, splitOnAmp b = h0 :: t0 := by
        cases hs : splitOnAmp b with
        | nil => exact absurd hs (splitOnAmp_ne_nil b)
        | cons x y => exact ⟨x, y, rfl⟩
      rw [hsplit]
      simp
  | cons c rest ih =>
      have hr := ih (fun ch hch => h ch (by simp [hch]))
      simp only [List.cons_append, splitOnAmp]
      rw [show rest.append ('&' :: b) = rest ++ '&' :: b from rfl, hr]
      simp [h c (List.mem_cons_self c rest)]

/-- Splitting a pair at its first `=`. -/
theorem splitPair_append (k v : List Char) (h : ∀ ch ∈ k, ch ≠ '=') :
    splitPair (k ++ '=' :: v) = (k, v) := by
  induction k with
  | nil => simp [splitPair]
  | cons c rest ih =>
      simp only [List.cons_append, splitPair, if_neg (h c (by simp))]
      rw [show rest.append ('=' :: v) = rest ++ '=' :: v from rfl,
        ih (fun ch hch => h ch (by simp [hch]))]

/-- The base64 alphabet inverts through `b64Value`. -/
theorem b64Value_alphabet : ∀ i < 64, b64Value (b64Alphabet i) = some i := by decide

/-- Base64 digits are not padding. -/
theorem b64Alphabet_ne_eq : ∀ i < 64, b64Alphabet i ≠ '=' := by decide

/-- Base64url characters avoid every URI-special character used here. -/
theorem b64UrlRepl_chars : ∀ i < 64, b64UrlRepl (b64Alphabet i) ≠ '%' ∧
    b64UrlRepl (b64Alphabet i) ≠ '+' ∧ b64UrlRepl (b64Alphabet i) ≠ '&' ∧
    b64UrlRepl (b64Alphabet i) ≠ '=' := by decide

/-- The base64url character replacement is inverted by the parser's map. -/
theorem b64UrlRepl_inv : ∀ i < 64,
    (if b64UrlRepl (b64Alphabet i) = '-' then '+'
     else if b64UrlRepl (b64Alphabet i) = '_' then '/'
     else b64UrlRepl (b64Alphabet i)) = b64Alphabet i := by decide

/-- Structure of `btoa` output: alphabet characters followed by padding. -/
theorem btoa_struct (bytes : List Nat) (h : ∀ b ∈ bytes, b < 256) :
    ∃ core e, btoa bytes = core ++ List.replicate e '=' ∧
      (∀ ch ∈ core, ∃ i, i < 64 ∧ ch = b64Alphabet i) ∧ e ≤ 2 ∧
      core.length % 4 = (4 - e) % 4 ∧ (bytes = [] ↔ core = []) := by
  induction bytes using btoa.induct with
  | case1 b0 b1 b2 rest ih =>
      obtain ⟨core, e, hbtoa, hmem, he2, hlen4, hiff⟩ :=
        ih (fun b hb => h b (by simp [hb]))
      have h0 : b0 < 256 := h b0 (by simp)
      have h1 : b1 < 256 := h b1 (by simp)
      have h2 : b2 < 256 := h b2 (by simp)
      refine ⟨b64Alphabet (b0 / 4) :: b64Alphabet ((b0 % 4) * 16 + b1 / 16) ::
        b64Alphabet ((b1 % 16) * 4 + b2 / 64) :: b64Alphabet (b2 % 64) :: core,
        e, ?_, ?_, he2, ?_, ?_⟩
      · simp [btoa, hbtoa]
      · intro ch hch
        simp only [List.mem_cons] at hch
        rcases hch with rfl | rfl | rfl | rfl | hch
        · exact ⟨b0 / 4, by omega, rfl⟩
        · exact ⟨(b0 % 4) * 16 + b1 / 16, by omega, rfl⟩
        · exact ⟨(b1 % 16) * 4 + b2 / 64, by omega, rfl⟩
        · exact ⟨b2 % 64, by omega, rfl⟩
        · exact hmem ch hch
      · simp only [List.length_cons]
        omega
      · simp
  | case2 b0 b1 =>
      have h0 : b0 < 256 := h b0 (by simp)
      have h1 : b1 < 256 := h b1 (by simp)
      refine ⟨[b64Alphabet (b0 / 4), b64Alphabet ((b0 % 4) * 16 + b1 / 16),
        b64Alphabet ((b1 % 16) * 4)], 1, ?_, ?_, ?_, ?_, ?_⟩
      · simp [btoa, List.replicate]
      · intro ch hch
        simp only [List.mem_cons, List.not_mem_nil, or_false] at hch
        rcases hch with rfl | rfl | rfl
        · exact ⟨b0 / 4, by omega, rfl⟩
        · exact ⟨(b0 % 4) * 16 + b1 / 16, by omega, rfl⟩
        · exact ⟨(b1 % 16) * 4, by omega, rfl⟩
      · omega
      · rfl
      · simp
  | case3 b0 =>
      have h0 : b0 < 256 := h b0 (by simp)
      refine ⟨[b64Alphabet (b0 / 4), b64Alphabet ((b0 % 4) * 16)], 2, ?_, ?_, ?_,
        ?_, ?_⟩
      · simp [btoa, List.replicate]
      · intro ch hch
        simp only [List.mem_cons, List.not_mem_nil, or_false] at hch
        rcases hch with rfl | rfl
        · exact ⟨b0 / 4, by omega, rfl⟩
        · exact ⟨(b0 % 4) * 16, by omega, rfl⟩
      · omega
      · rfl
      · simp
  | case4 =>
      exact ⟨[], 0, by simp [btoa], by simp, by omega, by decide, by simp⟩

/-- `atob` inverts `btoa` on byte strings. -/
theorem atob_btoa (bytes : List Nat) (h : ∀ b ∈ bytes, b < 256) :
    atob (btoa bytes) = some bytes := by
  induction bytes using btoa.induct with
  | case1 b0 b1 b2 rest ih =>
      have h0 : b0 < 256 := h b0 (by simp)
      have h1 : b1 < 256 := h b1 (by simp)
      have h2 : b2 < 256 := h b2 (by simp)
      have e0 := b64Value_alphabet (b0 / 4) (by omega)
      have e1 := b64Value_alphabet ((b0 % 4) * 16 + b1 / 16) (by omega)
      have e2 := b64Value_alphabet ((b1 % 16) * 4 + b2 / 64) (by omega)
      have e3 := b64Value_alphabet (b2 % 64) (by omega)
      have hne2 : b64Alphabet ((b1 % 16) * 4 + b2 / 64) ≠ '=' :=
        b64Alphabet_ne_eq _ (by omega)
      have hne3 : b64Alphabet (b2 % 64) ≠ '=' := b64Alphabet_ne_eq _ (by omega)
      simp only [btoa, atob, e0, e1, e2, e3,
        ih (fun b hb => h b (by simp [hb]))]
      rw [if_neg (fun hcon => hne2 hcon.1), if_neg (fun hcon => hne3 hcon.1)]
      rw [show b0 / 4 * 4 + ((b0 % 4) * 16 + b1 / 16) / 16 = b0 from by omega,
        show ((b0 % 4) * 16 + b1 / 16) % 16 * 16 + ((b1 % 16) * 4 + b2 / 64) / 4 =
          b1 from by omega,
        show ((b1 % 16) * 4 + b2 / 64) % 4 * 64 + b2 % 64 = b2 from by omega]
  | case2 b0 b1 =>
      have h0 : b0 < 256 := h b0 (by simp)
      have h1 : b1 < 256 := h b1 (by simp)
      have e0 := b64Value_alphabet (b0 / 4) (by omega)
      have e1 := b64Value_alphabet ((b0 % 4) * 16 + b1 / 16) (by omega)
      have e2 := b64Value_alphabet ((b1 % 16) * 4) (by omega)
      have hne2 : b64Alphabet ((b1 % 16) * 4) ≠ '=' := b64Alphabet_ne_eq _ (by omega)
      simp only [btoa, atob, e0, e1, e2]
      rw [if_neg (fun hcon => hne2 hcon.1), if_pos (by simp)]
      rw [show b0 / 4 * 4 + ((b0 % 4) * 16 + b1 / 16) / 16 = b0 from by omega,
        show ((b0 % 4) * 16 + b1 / 16) % 16 * 16 + (b1 % 16) * 4 / 4 = b1 from by
          omega]
  | case3 b0 =>
      have h0 : b0 < 256 := h b0 (by simp)
      have e0 := b64Value_alphabet (b0 / 4) (by omega)
      have e1 := b64Value_alphabet ((b0 % 4) * 16) (by omega)
      simp only [btoa, atob, e0, e1]
      rw [if_pos (by simp)]
      rw [show b0 / 4 * 4 + (b0 % 4) * 16 / 16 = b0 from by omega]
  | case4 => rfl

/-- Stripping the padding appended after padding-free characters. -/
theorem removeTrailingEq_append (mc : List Char) (e : Nat)
    (h : ∀ ch ∈ mc, ch ≠ '=') :
    removeTrailingEq (mc ++ List.replicate e '=') = mc := by
  unfold removeTrailingEq
  rw [List.reverse_append, List.reverse_replicate]
  have hdrop : List.dropWhile (fun c => decide (c = '='))
      (List.replicate e '=' ++ mc.reverse) =
      List.dropWhile (fun c => decide (c = '=')) mc.reverse := by
    induction e with
    | zero => rfl
    | succ n ihn =>
        simp only [List.replicate, List.cons_append, List.dropWhile_cons]
        simp [ihn]
  rw [hdrop]
  have hid : List.dropWhile (fun c => decide (c = '=')) mc.reverse = mc.reverse := by
    cases hmc : mc.reverse with
    | nil => rfl
    | cons x t =>
        have hx : x ∈ mc := by
          rw [← List.mem_reverse, hmc]
          simp
        exact List.dropWhile_cons_of_neg (by simp [h x hx])
  rw [hid, List.reverse_reverse]

/-- The base64url encoder in terms of the `btoa` core. -/
theorem uint8ArrayToBase64url_struct (bytes : List Nat) (h : ∀ b ∈ bytes, b < 256) :
    ∃ core e, uint8ArrayToBase64url bytes = core.map b64UrlRepl ∧
      btoa bytes = core ++ List.replicate e '=' ∧
      (∀ ch ∈ core, ∃ i, i < 64 ∧ ch = b64Alphabet i) ∧ e ≤ 2 ∧
      core.length % 4 = (4 - e) % 4 ∧ (bytes = [] ↔ core = []) := by
  obtain ⟨core, e, hbtoa, hmem, he2, hlen4, hiff⟩ := btoa_struct bytes h
  refine ⟨core, e, ?_, hbtoa, hmem, he2, hlen4, hiff⟩
  unfold uint8ArrayToBase64url
  rw [hbtoa, List.map_append, List.map_replicate,
    show b64UrlRepl '=' = '=' from by decide]
  exact removeTrailingEq_append _ e (by
    intro ch hch
    obtain ⟨x, hx, rfl⟩ := List.mem_map.mp hch
    obtain ⟨i, hi, rfl⟩ := hmem x hx
    exact (b64UrlRepl_chars i hi).2.2.2)

/-- Base64url round trip for byte strings. -/
theorem b64_roundtrip (bytes : List Nat) (h : ∀ b ∈ bytes, b < 256) :
    base64urlToUint8Array (uint8ArrayToBase64url bytes) = some bytes := by
  obtain ⟨core, e, hstrip, hbtoa, hmem, he2, hlen4, _⟩ :=
    uint8ArrayToBase64url_struct bytes h
  rw [hstrip]
  unfold base64urlToUint8Array
  have hunmap : (core.map b64UrlRepl).map
      (fun c => if c = '-' then '+' else if c = '_' then '/' else c) = core := by
    rw [List.map_map]
    have hcongr : ∀ a ∈ core,
        ((fun c => if c = '-' then '+' else if c = '_' then '/' else c) ∘
          b64UrlRepl) a = id a := by
      intro a ha
      obtain ⟨i, hi, rfl⟩ := hmem a ha
      exact b64UrlRepl_inv i hi
    rw [List.map_congr_left hcongr, List.map_id]
  simp only [hunmap]
  rw [show (4 - core.length % 4) % 4 = e from by omega]
  rw [← hbtoa]
  exact atob_btoa bytes h

set_option maxHeartbeats 2000000 in
/-- **C3, amended.** For every non-empty address containing none of the
characters `&`, `%`, `+`, every 32-byte PSK, and every label containing
no `%`, parsing the created exchange URI succeeds and returns exactly the
same address, the same PSK bytes, and the literal original label. Addresses
containing `=` are fine: each pair is split at its first `=` only. -/
theorem uri_roundtrip (address : String) (psk : List Nat) (label : String)
    (haddr : address.data ≠ [])
    (haddrc : ∀ ch ∈ address.data, ch ≠ '&' ∧ ch ≠ '%' ∧ ch ≠ '+')
    (hlab : ∀ ch ∈ label.data, ch ≠ '%')
    (hlen : psk.length = 32) (hbytes : ∀ b ∈ psk, b < 256) :
    (createPSKExchangeURI address psk label).map parsePSKExchangeURI =
      .ok (.ok { address := address, psk := psk, label := label }) := by
  have hcreate : createPSKExchangeURI address psk label =
      .ok (String.mk ("algochat-psk://v1?addr=".data ++ address.data ++
        "&psk=".data ++ uint8ArrayToBase64url psk ++
        "&label=".data ++ encodeURIComponent label.data)) := by
    unfold createPSKExchangeURI
    rw [if_neg (by simp [hlen])]
  rw [hcreate]
  simp only [Except.map]
  obtain ⟨core, e, hstrip, hbtoa, hmem, he2, hlen4, hiffcore⟩ :=
    uint8ArrayToBase64url_struct psk hbytes
  have hb64chars : ∀ ch ∈ uint8ArrayToBase64url psk,
      ch ≠ '%' ∧ ch ≠ '+' ∧ ch ≠ '&' ∧ ch ≠ '=' := by
    rw [hstrip]
    intro ch hch
    obtain ⟨x, hx, rfl⟩ := List.mem_map.mp hch
    obtain ⟨i, hi, rfl⟩ := hmem x hx
    exact b64UrlRepl_chars i hi
  have hb64ne : ¬ uint8ArrayToBase64url psk = [] := by
    rw [hstrip]
    intro hnil
    have hcore : core = [] := List.map_eq_nil_iff.mp hnil
    have hpsknil : psk = [] := hiffcore.mpr hcore
    rw [hpsknil] at hlen
    simp at hlen
  have kaddr : ∀ ch ∈ ("addr=".data : List Char), ch ≠ '&' := by decide
  have kpsk : ∀ ch ∈ ("psk=".data : List Char), ch ≠ '&' := by decide
  have klabel : ∀ ch ∈ ("label=".data : List Char), ch ≠ '&' := by decide
  have hp1chars : ∀ ch ∈ "addr=".data ++ address.data, ch ≠ '&' := by
    intro ch hch
    rcases List.mem_append.mp hch with hc | hc
    · exact kaddr ch hc
    · exact (haddrc ch hc).1
  have hp2chars : ∀ ch ∈ "psk=".data ++ uint8ArrayToBase64url psk, ch ≠ '&' := by
    intro ch hch
    rcases List.mem_append.mp hch with hc | hc
    · exact kpsk ch hc
    · exact (hb64chars ch hc).2.2.1
  have hp3chars : ∀ ch ∈ "label=".data ++ encodeURIComponent label.data,
      ch ≠ '&' := by
    intro ch hch
    rcases List.mem_append.mp hch with hc | hc
    · exact klabel ch hc
    · exact (encodeURIComponent_chars label.data ch hc).2.1
  have hpieces : splitOnAmp ("addr=".data ++ address.data ++ "&psk=".data ++
      uint8ArrayToBase64url psk ++ "&label=".data ++
      encodeURIComponent label.data) =
      [("addr=".data ++ address.data),
       ("psk=".data ++ uint8ArrayToBase64url psk),
       ("label=".data ++ encodeURIComponent label.data)] := by
    rw [show ("addr=".data ++ address.data ++ "&psk=".data ++
        uint8ArrayToBase64url psk ++ "&label=".data ++
        encodeURIComponent label.data : List Char) =
        ("addr=".data ++ address.data) ++ '&' ::
          ("psk=".data ++ uint8ArrayToBase64url psk ++ "&label=".data ++
            encodeURIComponent label.data) from by
      rw [show ("&psk=".data : List Char) = '&' :: "psk=".data from rfl]
      simp [List.append_assoc]]
    rw [splitOnAmp_append _ _ hp1chars]
    rw [show ("psk=".data ++ uint8ArrayToBase64url psk ++ "&label=".data ++
        encodeURIComponent label.data : List Char) =
        ("psk=".data ++ uint8ArrayToBase64url psk) ++ '&' ::
          ("label=".data ++ encodeURIComponent label.data) from by
      rw [show ("&label=".data : List Char) = '&' :: "label=".data from rfl]
      simp [List.append_assoc]]
    rw [splitOnAmp_append _ _ hp2chars, splitOnAmp_no_amp _ hp3chars]
  have hsplit1 : splitPair ("addr=".data ++ address.data) =
      ("addr".data, address.data) := by
    rw [show ("addr=".data ++ address.data : List Char) =
      "addr".data ++ '=' :: address.data from rfl]
    exact splitPair_append _ _ (by decide)
  have hsplit2 : splitPair ("psk=".data ++ uint8ArrayToBase64url psk) =
      ("psk".data, uint8ArrayToBase64url psk) := by
    rw [show ("psk=".data ++ uint8ArrayToBase64url psk : List Char) =
      "psk".data ++ '=' :: uint8ArrayToBase64url psk from rfl]
    exact splitPair_append _ _ (by decide)
  have hsplit3 : splitPair ("label=".data ++ encodeURIComponent label.data) =
      ("label".data, encodeURIComponent label.data) := by
    rw [show ("label=".data ++ encodeURIComponent label.data : List Char) =
      "label".data ++ '=' :: encodeURIComponent label.data from rfl]
    exact splitPair_append _ _ (by decide)
  have hdec_addr : wwwFormDecode address.data = address.data :=
    wwwFormDecode_plain _
      (fun ch hch => ⟨(haddrc ch hch).2.1, (haddrc ch hch).2.2⟩)
  have hdec_b64 : wwwFormDecode (uint8ArrayToBase64url psk) =
      uint8ArrayToBase64url psk :=
    wwwFormDecode_plain _
      (fun ch hch => ⟨(hb64chars ch hch).1, (hb64chars ch hch).2.1⟩)
  have hdec_enc : wwwFormDecode (encodeURIComponent label.data) = label.data :=
    wwwFormDecode_encodeURIComponent label.data
  have hpairs : (((splitOnAmp ("addr=".data ++ address.data ++ "&psk=".data ++
      uint8ArrayToBase64url psk ++ "&label=".data ++
      encodeURIComponent label.data)).filter (fun p => ¬ p = [])).map
      (fun piece => (wwwFormDecode (splitPair piece).1,
                     wwwFormDecode (splitPair piece).2))) =
      [("addr".data, address.data), ("psk".data, uint8ArrayToBase64url psk),
       ("label".data, label.data)] := by
    rw [hpieces]
    rw [List.filter_cons_of_pos rfl, List.filter_cons_of_pos rfl,
      List.filter_cons_of_pos rfl]
    simp only [List.filter_nil, List.map_cons, List.map_nil, hsplit1, hsplit2,
      hsplit3]
    rw [hdec_addr, hdec_b64, hdec_enc]
    rw [show wwwFormDecode "addr".data = "addr".data from
      wwwFormDecode_plain _ (by decide)]
    rw [show wwwFormDecode "psk".data = "psk".data from
      wwwFormDecode_plain _ (by decide)]
    rw [show wwwFormDecode "label".data = "label".data from
      wwwFormDecode_plain _ (by decide)]
  have hget_addr : urlParamsGet ("addr=".data ++ address.data ++ "&psk=".data ++
      uint8ArrayToBase64url psk ++ "&label=".data ++
      encodeURIComponent label.data) "addr".data = some address.data := by
    unfold urlParamsGet
    rw [hpairs]
    rfl
  have hget_psk : urlParamsGet ("addr=".data ++ address.data ++ "&psk=".data ++
      uint8ArrayToBase64url psk ++ "&label=".data ++
      encodeURIComponent label.data) "psk".data =
      some (uint8ArrayToBase64url psk) := by
    unfold urlParamsGet
    rw [hpairs]
    rfl
  have hget_label : urlParamsGet ("addr=".data ++ address.data ++ "&psk=".data ++
      uint8ArrayToBase64url psk ++ "&label=".data ++
      encodeURIComponent label.data) "label".data = some label.data := by
    unfold urlParamsGet
    rw [hpairs]
    rfl
  have hb64rt : base64urlToUint8Array (uint8ArrayToBase64url psk) = some psk :=
    b64_roundtrip psk hbytes
  have hsplit0 : ("algochat-psk://v1?addr=".data ++ address.data ++
      "&psk=".data ++ uint8ArrayToBase64url psk ++ "&label=".data ++
      encodeURIComponent label.data : List Char) =
      "algochat-psk://v1?".data ++ ("addr=".data ++ address.data ++
        "&psk=".data ++ uint8ArrayToBase64url psk ++ "&label=".data ++
        encodeURIComponent label.data) := by
    rw [show ("algochat-psk://v1?addr=".data : List Char) =
      "algochat-psk://v1?".data ++ "addr=".data from rfl]
    simp [List.append_assoc]
  have htake : ("algochat-psk://v1?".data ++ ("addr=".data ++ address.data ++
      "&psk=".data ++ uint8ArrayToBase64url psk ++ "&label=".data ++
      encodeURIComponent label.data)).take 18 =
      "algochat-psk://v1?".data := List.take_left' (by decide)
  have hdrop : ("algochat-psk://v1?".data ++ ("addr=".data ++ address.data ++
      "&psk=".data ++ uint8ArrayToBase64url psk ++ "&label=".data ++
      encodeURIComponent label.data)).drop 18 =
      "addr=".data ++ address.data ++ "&psk=".data ++
        uint8ArrayToBase64url psk ++ "&label=".data ++
        encodeURIComponent label.data :=
    List.drop_left' (by decide)
  unfold parsePSKExchangeURI
  simp only [hsplit0, htake, hdrop, hget_addr, hget_psk, hget_label, hb64rt,
    Option.getD_some, decodeURIComponentM_no_pct label.data hlab, hlen, haddr,
    hb64ne, not_true, not_false_iff, if_false, if_true, ite_false, ite_true]

/-- Witness for `uri_roundtrip` at the repository's own URI vector. -/
theorem uri_roundtrip_witness :
    (createPSKExchangeURI "ADDR" (List.replicate 32 0x42)
      "Bob & Alice <3").map parsePSKExchangeURI =
      .ok (.ok { address := "ADDR", psk := List.replicate 32 0x42,
                 label := "Bob & Alice <3" }) :=
  uri_roundtrip "ADDR" (List.replicate 32 0x42) "Bob & Alice <3" (by decide)
    (by decide) (by decide) (by simp) (by
      intro b hb
      rw [List.eq_of_mem_replicate hb]
      norm_num)

set_option maxRecDepth 100000 in
/-- **C3, counterexample.** For the empty address the round trip fails:
`parsePSKExchangeURI` rejects the created URI with `Missing addr parameter`,
because the empty `addr` value is falsy. -/
theorem uri_roundtrip_counterexample :
    (createPSKExchangeURI "" (List.replicate 32 0x42) "x").map
      parsePSKExchangeURI = .ok (.error "Missing addr parameter") := by
  rfl

end AlgoChat

